import Mathlib

/-!
The in-memory slice reader of trdsql (input_slice.go).

A shallow embedding of `input_slice.go`.  The Go functions inspect their
argument through package `reflect`; the part of `reflect` they call is modelled
here on an explicit representation of Go types and of `interface{}` values.
A run-time panic of the Go program is a `Fault` in `Except Fault`.

Parts of the program that live outside `input_slice.go` are taken as fields of
`Env`: the package constant `DefaultDBType`, the `%v` formatting of package
`fmt`, and the unspecified order in which `reflect.Value.MapKeys` lists keys.
-/

namespace Trdsql

/-! ## Go kinds, types and values -/

/-- The constants of `reflect.Kind`. -/
inductive Kind where
  | Invalid | Bool | Int | Int8 | Int16 | Int32 | Int64
  | Uint | Uint8 | Uint16 | Uint32 | Uint64 | Uintptr
  | Float32 | Float64 | Complex64 | Complex128
  | Array | Chan | Func | Interface | Map | Pointer | Slice
  | String | Struct | UnsafePointer
deriving DecidableEq, Repr

/-- Kinds of the types whose values `NewSliceReader` never looks inside: the
predeclared scalar types and the array, channel, function and pointer types.
(Every kind except `Invalid`, `Interface`, `Map`, `Slice` and `Struct`.) -/
inductive BasicKind where
  | bool | int | int8 | int16 | int32 | int64
  | uint | uint8 | uint16 | uint32 | uint64 | uintptr
  | float32 | float64 | complex64 | complex128
  | array | chan | func | pointer | string | unsafePointer
deriving DecidableEq, Repr

/-- The `reflect.Kind` of a basic kind. -/
def BasicKind.Kind : BasicKind → Trdsql.Kind
  | .bool => .Bool | .int => .Int | .int8 => .Int8 | .int16 => .Int16
  | .int32 => .Int32 | .int64 => .Int64
  | .uint => .Uint | .uint8 => .Uint8 | .uint16 => .Uint16 | .uint32 => .Uint32
  | .uint64 => .Uint64 | .uintptr => .Uintptr
  | .float32 => .Float32 | .float64 => .Float64
  | .complex64 => .Complex64 | .complex128 => .Complex128
  | .array => .Array | .chan => .Chan | .func => .Func | .pointer => .Pointer
  | .string => .String | .unsafePointer => .UnsafePointer

/-- Payload of a value of a basic kind.  The program never inspects it; it only
tells values apart: two values of one type that Go's `==` finds equal have the
same payload.  `nan` is the payload of a value that `==` finds unequal to
itself: a floating-point NaN, or a complex number or an array that holds one. -/
inductive Prim where
  | int (n : Int)
  | str (s : String)
  | bool (b : Bool)
  | raw (bits : Nat)
  | nan
deriving DecidableEq, Repr

/-- Go types, as far as the program distinguishes them.  `iface` is the empty
interface type `interface{}`.  Defined (named) types are not modelled. -/
inductive GoType where
  | basic (k : BasicKind)
  | iface
  | slice (elem : GoType)
  | map (key elem : GoType)
  | struct (fields : List (String × GoType))

/-- A Go value seen as an `interface{}`: `nil` is the nil interface, every other
constructor is a value together with its dynamic type.  The elements of a slice
(keys and elements of a map, fields of a struct) are again seen as
`interface{}`: for a slot of static type `interface{}` this is the interface
value stored there (possibly `nil`), for a slot of a concrete type it is the
stored value boxed with that type.  A nil slice is the slice with no elements. -/
inductive GoVal where
  | nil
  | basic (k : BasicKind) (p : Prim)
  | slice (elem : GoType) (xs : List GoVal)
  | map (key elem : GoType) (entries : List (GoVal × GoVal))
  | struct (fields : List (String × GoType × GoVal))

/-! ### Equality of types and values (Go `==` on interface values) -/

mutual
/-- Type identity. -/
def GoType.beq : GoType → GoType → Bool
  | .basic a, .basic b => decide (a = b)
  | .iface, .iface => true
  | .slice a, .slice b => GoType.beq a b
  | .map a b, .map c d => GoType.beq a c && GoType.beq b d
  | .struct a, .struct b => GoType.beqFields a b
  | _, _ => false
/-- Identity of field lists. -/
def GoType.beqFields : List (String × GoType) → List (String × GoType) → Bool
  | [], [] => true
  | (n, t) :: r, (m, u) :: s => decide (n = m) && GoType.beq t u && GoType.beqFields r s
  | _, _ => false
end

mutual
theorem goType_beq_iff : ∀ a b : GoType, GoType.beq a b = true ↔ a = b
  | .basic a, .basic b => by simp [GoType.beq]
  | .iface, .iface => by simp [GoType.beq]
  | .slice a, .slice b => by simp [GoType.beq, goType_beq_iff a b]
  | .map a b, .map c d => by simp [GoType.beq, goType_beq_iff a c, goType_beq_iff b d]
  | .struct a, .struct b => by simp [GoType.beq, goType_beqFields_iff a b]
  | .basic _, .iface => by simp [GoType.beq]
  | .basic _, .slice _ => by simp [GoType.beq]
  | .basic _, .map _ _ => by simp [GoType.beq]
  | .basic _, .struct _ => by simp [GoType.beq]
  | .iface, .basic _ => by simp [GoType.beq]
  | .iface, .slice _ => by simp [GoType.beq]
  | .iface, .map _ _ => by simp [GoType.beq]
  | .iface, .struct _ => by simp [GoType.beq]
  | .slice _, .basic _ => by simp [GoType.beq]
  | .slice _, .iface => by simp [GoType.beq]
  | .slice _, .map _ _ => by simp [GoType.beq]
  | .slice _, .struct _ => by simp [GoType.beq]
  | .map _ _, .basic _ => by simp [GoType.beq]
  | .map _ _, .iface => by simp [GoType.beq]
  | .map _ _, .slice _ => by simp [GoType.beq]
  | .map _ _, .struct _ => by simp [GoType.beq]
  | .struct _, .basic _ => by simp [GoType.beq]
  | .struct _, .iface => by simp [GoType.beq]
  | .struct _, .slice _ => by simp [GoType.beq]
  | .struct _, .map _ _ => by simp [GoType.beq]
theorem goType_beqFields_iff :
    ∀ a b : List (String × GoType), GoType.beqFields a b = true ↔ a = b
  | [], [] => by simp [GoType.beqFields]
  | (n, t) :: r, (m, u) :: s => by
      simp [GoType.beqFields, goType_beq_iff t u, goType_beqFields_iff r s, and_assoc]
  | [], _ :: _ => by simp [GoType.beqFields]
  | _ :: _, [] => by simp [GoType.beqFields]
end

instance : DecidableEq GoType := fun a b => decidable_of_iff _ (goType_beq_iff a b)

mutual
/-- Equality of values: identical dynamic types and equal contents. -/
def GoVal.beq : GoVal → GoVal → Bool
  | .nil, .nil => true
  | .basic k p, .basic l q => decide (k = l) && decide (p = q)
  | .slice e xs, .slice f ys => decide (e = f) && GoVal.beqList xs ys
  | .map k e xs, .map l f ys => decide (k = l) && decide (e = f) && GoVal.beqEntries xs ys
  | .struct xs, .struct ys => GoVal.beqFields xs ys
  | _, _ => false
termination_by structural x => x
/-- Equality of element lists. -/
def GoVal.beqList : List GoVal → List GoVal → Bool
  | [], [] => true
  | x :: r, y :: s => GoVal.beq x y && GoVal.beqList r s
  | _, _ => false
termination_by structural x => x
/-- Equality of map entry lists. -/
def GoVal.beqEntries : List (GoVal × GoVal) → List (GoVal × GoVal) → Bool
  | [], [] => true
  | (k, x) :: r, (l, y) :: s => GoVal.beq k l && GoVal.beq x y && GoVal.beqEntries r s
  | _, _ => false
termination_by structural x => x
/-- Equality of struct field lists. -/
def GoVal.beqFields :
    List (String × GoType × GoVal) → List (String × GoType × GoVal) → Bool
  | [], [] => true
  | (n, t, x) :: r, (m, u, y) :: s =>
      decide (n = m) && decide (t = u) && GoVal.beq x y && GoVal.beqFields r s
  | _, _ => false
termination_by structural x => x
end

mutual
theorem goVal_beq_iff : ∀ a b : GoVal, GoVal.beq a b = true ↔ a = b
  | .nil, .nil => by simp [GoVal.beq]
  | .basic k p, .basic l q => by simp [GoVal.beq]
  | .slice e xs, .slice f ys => by simp [GoVal.beq, goVal_beqList_iff xs ys]
  | .map k e xs, .map l f ys => by simp [GoVal.beq, goVal_beqEntries_iff xs ys, and_assoc]
  | .struct xs, .struct ys => by simp [GoVal.beq, goVal_beqFields_iff xs ys]
  | .nil, .basic _ _ => by simp [GoVal.beq]
  | .nil, .slice _ _ => by simp [GoVal.beq]
  | .nil, .map _ _ _ => by simp [GoVal.beq]
  | .nil, .struct _ => by simp [GoVal.beq]
  | .basic _ _, .nil => by simp [GoVal.beq]
  | .basic _ _, .slice _ _ => by simp [GoVal.beq]
  | .basic _ _, .map _ _ _ => by simp [GoVal.beq]
  | .basic _ _, .struct _ => by simp [GoVal.beq]
  | .slice _ _, .nil => by simp [GoVal.beq]
  | .slice _ _, .basic _ _ => by simp [GoVal.beq]
  | .slice _ _, .map _ _ _ => by simp [GoVal.beq]
  | .slice _ _, .struct _ => by simp [GoVal.beq]
  | .map _ _ _, .nil => by simp [GoVal.beq]
  | .map _ _ _, .basic _ _ => by simp [GoVal.beq]
  | .map _ _ _, .slice _ _ => by simp [GoVal.beq]
  | .map _ _ _, .struct _ => by simp [GoVal.beq]
  | .struct _, .nil => by simp [GoVal.beq]
  | .struct _, .basic _ _ => by simp [GoVal.beq]
  | .struct _, .slice _ _ => by simp [GoVal.beq]
  | .struct _, .map _ _ _ => by simp [GoVal.beq]
theorem goVal_beqList_iff : ∀ a b : List GoVal, GoVal.beqList a b = true ↔ a = b
  | [], [] => by simp [GoVal.beqList]
  | x :: r, y :: s => by simp [GoVal.beqList, goVal_beq_iff x y, goVal_beqList_iff r s]
  | [], _ :: _ => by simp [GoVal.beqList]
  | _ :: _, [] => by simp [GoVal.beqList]
theorem goVal_beqEntries_iff :
    ∀ a b : List (GoVal × GoVal), GoVal.beqEntries a b = true ↔ a = b
  | [], [] => by simp [GoVal.beqEntries]
  | (k, x) :: r, (l, y) :: s => by
      simp [GoVal.beqEntries, goVal_beq_iff k l, goVal_beq_iff x y,
        goVal_beqEntries_iff r s, and_assoc]
  | [], _ :: _ => by simp [GoVal.beqEntries]
  | _ :: _, [] => by simp [GoVal.beqEntries]
theorem goVal_beqFields_iff :
    ∀ a b : List (String × GoType × GoVal), GoVal.beqFields a b = true ↔ a = b
  | [], [] => by simp [GoVal.beqFields]
  | (n, t, x) :: r, (m, u, y) :: s => by
      simp [GoVal.beqFields, goVal_beq_iff x y, goVal_beqFields_iff r s, and_assoc]
  | [], _ :: _ => by simp [GoVal.beqFields]
  | _ :: _, [] => by simp [GoVal.beqFields]
end

instance : DecidableEq GoVal := fun a b => decidable_of_iff _ (goVal_beq_iff a b)

/-! ### Go `==` on map keys -/

mutual
/-- The comparison `a == b` of two interface values, as a map uses it on its
keys: identical dynamic types and equal contents, where a NaN is unequal to
everything, itself included, and structs are compared field by field.  Slices
and maps are not comparable, and no map has such a key. -/
def GoVal.goEq : GoVal → GoVal → Bool
  | .nil, .nil => true
  | .basic k p, .basic l q => decide (k = l) && decide (p = q) && decide (p ≠ Prim.nan)
  | .struct xs, .struct ys => GoVal.goEqFields xs ys
  | _, _ => false
termination_by structural x => x
/-- The comparison `==` on the fields of two struct values. -/
def GoVal.goEqFields :
    List (String × GoType × GoVal) → List (String × GoType × GoVal) → Bool
  | [], [] => true
  | (n, t, x) :: r, (m, u, y) :: s =>
      decide (n = m) && decide (t = u) && GoVal.goEq x y && GoVal.goEqFields r s
  | _, _ => false
termination_by structural x => x
end

/-- The index expression `m[k]` on the entries of a map: the element stored
under the key that is `==` to `k`, if there is one. -/
def mapLookup (es : List (GoVal × GoVal)) (k : GoVal) : Option GoVal :=
  (es.find? (fun e => GoVal.goEq e.1 k)).map Prod.snd

/-! ## The part of package `reflect` the program calls -/

/-- Run-time panics of the Go program. -/
inductive Fault where
  /-- An index past the end: `reflect: slice index out of range`, or the
  runtime error `index out of range [i] with length n`. -/
  | indexOutOfRange
  /-- A failed type assertion `x.(T)` (`interface conversion`). -/
  | typeAssertion
  /-- A method that needs a value, called on the zero `reflect.Value`. -/
  | zeroValue
  /-- A `reflect` method called on a value of a kind it does not accept. -/
  | wrongKind
  /-- The data of a `reflect.Value` does not inhabit its type.  No Go value
  reaches this; it only makes the model total. -/
  | illTyped
deriving DecidableEq, Repr

/-- Method `Kind` of `reflect.Type`. -/
def GoType.Kind : GoType → Trdsql.Kind
  | .basic k => k.Kind
  | .iface => .Interface
  | .slice _ => .Slice
  | .map _ _ => .Map
  | .struct _ => .Struct

/-- The declared fields `(name, type)` of a struct value. -/
def structFieldTypes (fs : List (String × GoType × GoVal)) : List (String × GoType) :=
  fs.map (fun f => (f.1, f.2.1))

/-- The dynamic type of an `interface{}` value (`reflect.TypeOf`); `none` for
the nil interface. -/
def GoVal.TypeOf : GoVal → Option GoType
  | .nil => none
  | .basic k _ => some (.basic k)
  | .slice e _ => some (.slice e)
  | .map k e _ => some (.map k e)
  | .struct fs => some (.struct (structFieldTypes fs))

/-- A `reflect.Value`: the zero Value, or a slot of static type `typ` holding
`v` (seen as an `interface{}`, see `GoVal`). -/
inductive Value where
  | zero
  | mk (typ : GoType) (v : GoVal)

/-- A field of a struct type (`reflect.StructField`). -/
structure StructField where
  Name : String
  Typ : GoType

/-- The function `reflect.ValueOf`: the zero Value for the nil interface, else
the dynamic value with its dynamic type. -/
def ValueOf (i : GoVal) : Value :=
  match i.TypeOf with
  | none => .zero
  | some t => .mk t i

/-- Method `Kind`: the kind of the Value's static type; `Invalid` for the zero
Value. -/
def Value.Kind : Value → Trdsql.Kind
  | .zero => .Invalid
  | .mk t _ => t.Kind

/-- Method `Interface`: the held value as an `interface{}`; panics on the zero
Value.  A slot of interface type yields the interface value it holds. -/
def Value.Interface : Value → Except Fault GoVal
  | .zero => .error .zeroValue
  | .mk _ v => .ok v

/-- Method `Len`, for the slices the program calls it on. -/
def Value.Len : Value → Except Fault Nat
  | .zero => .error .zeroValue
  | .mk (.slice _) (.slice _ xs) => .ok xs.length
  | .mk (.slice _) _ => .error .illTyped
  | .mk _ _ => .error .wrongKind

/-- Method `Index`, for the slices the program calls it on: the `i`-th element,
a slot of the slice's element type; panics when `i` is out of range. -/
def Value.Index (v : Value) (i : Nat) : Except Fault Value :=
  match v with
  | .zero => .error .zeroValue
  | .mk (.slice e) (.slice _ xs) =>
    match xs[i]? with
    | some x => .ok (.mk e x)
    | none => .error .indexOutOfRange
  | .mk (.slice _) _ => .error .illTyped
  | .mk _ _ => .error .wrongKind

/-- Method `MapKeys`: the keys of the map, each a slot of the map's key type, in
the order `order` puts them (Go leaves the order unspecified). -/
def Value.MapKeys (order : List GoVal → List GoVal) : Value → Except Fault (List Value)
  | .zero => .error .zeroValue
  | .mk (.map k _) (.map _ _ es) => .ok ((order (es.map Prod.fst)).map (Value.mk k))
  | .mk (.map _ _) _ => .error .illTyped
  | .mk _ _ => .error .wrongKind

/-- Method `MapIndex`: the element stored under the key that is `==` to `key`,
a slot of the map's element type; the zero Value when no key of the map is
(a NaN key is never found). -/
def Value.MapIndex (v key : Value) : Except Fault Value :=
  match v, key with
  | .mk (.map _ e) (.map _ _ es), .mk _ k =>
    match mapLookup es k with
    | some x => .ok (.mk e x)
    | none => .ok .zero
  | .mk (.map _ _) _, .mk _ _ => .error .illTyped
  | .mk _ _, .mk _ _ => .error .wrongKind
  | _, _ => .error .zeroValue

/-- Method `Type` of `reflect.Value`. -/
def Value.Type : Value → Except Fault GoType
  | .zero => .error .zeroValue
  | .mk t _ => .ok t

/-- Method `NumField` of `reflect.Type`. -/
def GoType.NumField : GoType → Except Fault Nat
  | .struct fs => .ok fs.length
  | _ => .error .wrongKind

/-- Method `Field` of `reflect.Type`. -/
def GoType.Field (t : GoType) (i : Nat) : Except Fault StructField :=
  match t with
  | .struct fs =>
    match fs[i]? with
    | some f => .ok ⟨f.1, f.2⟩
    | none => .error .indexOutOfRange
  | _ => .error .wrongKind

/-- Method `NumField` of `reflect.Value`: the field count of its struct type. -/
def Value.NumField : Value → Except Fault Nat
  | .zero => .error .zeroValue
  | .mk t _ => t.NumField

/-- Method `Field` of `reflect.Value`: the `i`-th field, a slot of the field's
declared type. -/
def Value.Field (v : Value) (i : Nat) : Except Fault Value :=
  match v with
  | .zero => .error .zeroValue
  | .mk (.struct fs) (.struct vs) =>
    match fs[i]?, vs[i]? with
    | some f, some x => .ok (.mk f.2 x.2.2)
    | none, _ => .error .indexOutOfRange
    | some _, none => .error .illTyped
  | .mk (.struct _) _ => .error .illTyped
  | .mk _ _ => .error .wrongKind

/-- The function `reflect.Indirect`: it returns its argument unchanged unless
that is a pointer.  Pointees are not modelled; the one call passes a map. -/
def Indirect (v : Value) : Value := v

/-- The type assertion `x.([]interface{})`: it yields the elements when the
dynamic type of `x` is exactly `[]interface{}`, and panics otherwise. -/
def assertInterfaceSlice : GoVal → Except Fault (List GoVal)
  | .slice .iface xs => .ok xs
  | _ => .error .typeAssertion

/-- The index expression `xs[i]` on a Go slice. -/
def goIndex {α : Type} (xs : List α) (i : Nat) : Except Fault α :=
  match xs[i]? with
  | some x => .ok x
  | none => .error .indexOutOfRange

/-- A Go `string` boxed in an `interface{}`. -/
def GoVal.ofString (s : String) : GoVal := .basic .string (.str s)

/-! ## The program -/

/-- What `input_slice.go` takes from outside the file. -/
structure Env where
  /-- The package constant `DefaultDBType`. -/
  DefaultDBType : String
  /-- The call `fmt.Sprintf("%v", x)` on a `reflect.Value` `x`. -/
  Sprintf_v : Value → String
  /-- The order in which the `n`-th call of `MapKeys` in `mapSliceReader` lists
  the keys of the map. -/
  mapKeys : Nat → List GoVal → List GoVal

/-- Every call of `MapKeys` lists each key of the map exactly once. -/
def Env.MapKeysValid (env : Env) : Prop :=
  ∀ (n : Nat) (ks : List GoVal), (env.mapKeys n ks).Perm ks

/-- The call `fmt.Sprintf("c%d", n)`. -/
def Sprintf_c_d (n : Nat) : String := "c" ++ toString n

/-- The struct `SliceReader`. -/
structure SliceReader where
  tableName : String
  names : List String
  types : List String
  data : List (List GoVal)
deriving DecidableEq

/-- The Go type `error`, as far as this file uses it. -/
inductive GoError where
  | EOF
deriving DecidableEq, Repr

/-- In sliceReader, only int type is passed to the database as int type. -/
def typeToDBType (env : Env) (t : Kind) : String :=
  match t with
  | .Int | .Int8 | .Int16 | .Int32 | .Int64 => "int"
  | _ => env.DefaultDBType

/-- The function `mapSliceReader`. -/
def mapSliceReader (env : Env) (tableName : String) (val : Value) :
    Except Fault SliceReader := do
  let val := Indirect val
  let names := ["c1", "c2"]
  let keyType := (← goIndex (← val.MapKeys (env.mapKeys 0)) 0).Kind
  let valType := (← val.MapIndex (← goIndex (← val.MapKeys (env.mapKeys 1)) 0)).Kind
  let types := [typeToDBType env keyType, typeToDBType env valType]
  let data ← (← val.MapKeys (env.mapKeys 2)).mapM (fun e => do
    let k ← e.Interface
    let v ← (← val.MapIndex e).Interface
    pure [k, v])
  pure { tableName := tableName, names := names, types := types, data := data }

/-- The function `interfaceSliceReader`. -/
def interfaceSliceReader (env : Env) (tableName : String) (val : Value) :
    Except Fault SliceReader := do
  let single ← assertInterfaceSlice (← val.Interface)
  let names := ["c1"]
  let t := ValueOf (← goIndex single 0)
  let types := [typeToDBType env t.Kind]
  let data ← (List.range single.length).mapM (fun i => do
    pure [← goIndex single i])
  pure { tableName := tableName, names := names, types := types, data := data }

/-- The function `structSliceReader`.  The first loop fills `names[i]` and
`types[i]` for every `i < columnNum`; the second appends one row per element. -/
def structSliceReader (env : Env) (tableName : String) (val : Value) :
    Except Fault SliceReader := do
  let length ← val.Len
  let t ← (← val.Index 0).Type
  let columnNum ← t.NumField
  let cols ← (List.range columnNum).mapM (fun i => do
    let f ← t.Field i
    pure (f.Name, typeToDBType env f.Typ.Kind))
  let data ← (List.range length).mapM (fun i => do
    let rows ← val.Index i
    let r ← (List.range (← rows.NumField)).mapM (fun j => do
      pure (GoVal.ofString (env.Sprintf_v (← rows.Field j))))
    pure r)
  pure { tableName := tableName, names := cols.map Prod.fst, types := cols.map Prod.snd,
         data := data }

/-- The function `sliceSliceReader`. -/
def sliceSliceReader (env : Env) (tableName : String) (val : Value) :
    Except Fault SliceReader := do
  let length ← val.Len
  let col ← val.Index 0
  let columnNum ← col.Len
  let cols ← (List.range columnNum).mapM (fun i => do
    let colType := (ValueOf (← (← col.Index i).Interface)).Kind
    pure (Sprintf_c_d (i + 1), typeToDBType env colType))
  let data ← (List.range length).mapM (fun i => do
    assertInterfaceSlice (← (← val.Index i).Interface))
  pure { tableName := tableName, names := cols.map Prod.fst, types := cols.map Prod.snd,
         data := data }

/-- NewSliceReader takes a tableName and tabular data in memory
and returns SliceReader. -/
def NewSliceReader (env : Env) (tableName : String) (args : GoVal) :
    Except Fault SliceReader := do
  let val := ValueOf args
  match val.Kind with
  | .Map => mapSliceReader env tableName val
  | .Slice =>
    match (← val.Index 0).Kind with
    | .Struct => structSliceReader env tableName val
    | .Slice => sliceSliceReader env tableName val
    | _ => interfaceSliceReader env tableName val
  | _ =>
    let single ← val.Interface
    let data := [[single]]
    let names := ["c1"]
    let types := [typeToDBType env val.Kind]
    pure { tableName := tableName, names := names, types := types, data := data }

/-- Names returns column names. -/
def SliceReader.Names (r : SliceReader) : List String × Option GoError := (r.names, none)

/-- Types returns column types. -/
def SliceReader.Types (r : SliceReader) : List String × Option GoError := (r.types, none)

/-- PreReadRow is returns entity of the data. -/
def SliceReader.PreReadRow (r : SliceReader) : List (List GoVal) := r.data

/-- ReadRow only returns EOF. -/
def SliceReader.ReadRow (_r : SliceReader) (_row : List GoVal) :
    Option (List GoVal) × Option GoError := (none, some .EOF)

/-! ## Notions used to state the properties -/

/-- The signed integer kinds. -/
def isSignedInt (k : Kind) : Bool :=
  match k with
  | .Int | .Int8 | .Int16 | .Int32 | .Int64 => true
  | _ => false

/-- The elements of a slice value. -/
def GoVal.elems : GoVal → List GoVal
  | .slice _ xs => xs
  | _ => []

/-- The fields of a struct value, each a slot of its declared type. -/
def GoVal.fieldSlots : GoVal → List Value
  | .struct vs => vs.map (fun f => Value.mk f.2.1 f.2.2)
  | _ => []

/-- The cell the struct strategy writes for one field: the `%v` rendering of
the field, a Go string. -/
def renderField (env : Env) (s : Value) : GoVal := GoVal.ofString (env.Sprintf_v s)

/-- The row `mapSliceReader` appends for key `k`: the key and the element
stored under it. -/
def mapRow (es : List (GoVal × GoVal)) (k : GoVal) : List GoVal :=
  [k, (mapLookup es k).getD .nil]

/-- Every element of a slice of slices has as many cells as element 0 (true of
every other value). -/
def Rectangular (args : GoVal) : Bool :=
  match args with
  | .slice (.slice _) xs =>
    xs.all (fun x => decide (x.elems.length = (xs.headD .nil).elems.length))
  | _ => true

/-- The five non-empty input shapes `NewSliceReader` builds a table from: a
scalar, a map (its keys distinct and each equal to itself, so none a NaN), a
slice of structs, a slice of `[]interface{}` rows, and a `[]interface{}` slice
of single values. -/
inductive SupportedShape : GoVal → Prop where
  | scalar (k : BasicKind) (p : Prim) : SupportedShape (.basic k p)
  | map (kt et : GoType) (es : List (GoVal × GoVal)) (hne : es ≠ [])
      (hnd : (es.map Prod.fst).Nodup) (hself : ∀ k ∈ es.map Prod.fst, GoVal.goEq k k = true) :
      SupportedShape (.map kt et es)
  | structSlice (fs : List (String × GoType)) (x0 : GoVal) (xs : List GoVal)
      (hty : ∀ x ∈ x0 :: xs, x.TypeOf = some (.struct fs)) :
      SupportedShape (.slice (.struct fs) (x0 :: xs))
  | sliceSlice (row0 : List GoVal) (rest : List (List GoVal)) :
      SupportedShape (.slice (.slice .iface) ((row0 :: rest).map (GoVal.slice .iface)))
  | scalarSlice (x0 : GoVal) (xs : List GoVal) : SupportedShape (.slice .iface (x0 :: xs))

/-- The value of a decimal digit character. -/
def digitVal (c : Char) : Nat := c.toNat - 48

/-- Reading one more decimal digit. -/
def decodeStep (acc : Nat) (c : Char) : Nat := acc * 10 + digitVal c

/-! ## The read contract as a sequence of calls -/

/-- A call of one of the four read methods of `*SliceReader`. -/
inductive ReadCall where
  | Names
  | Types
  | PreReadRow
  | ReadRow (row : List GoVal)

/-- What a call of a read method returns. -/
inductive ReadResult where
  | strings (xs : List String) (err : Option GoError)
  | rows (data : List (List GoVal))
  | row (r : Option (List GoVal)) (err : Option GoError)
deriving DecidableEq

/-- One call on a reader: the reader after the call and what the call returns.
None of the four methods assigns to a field of its receiver, so the reader
after the call is the reader before it. -/
def SliceReader.call (r : SliceReader) : ReadCall → SliceReader × ReadResult
  | .Names => (r, .strings r.Names.1 r.Names.2)
  | .Types => (r, .strings r.Types.1 r.Types.2)
  | .PreReadRow => (r, .rows r.PreReadRow)
  | .ReadRow row => (r, .row (r.ReadRow row).1 (r.ReadRow row).2)

/-- The reader after a sequence of calls. -/
def SliceReader.calls (r : SliceReader) : List ReadCall → SliceReader
  | [] => r
  | c :: cs => (r.call c).1.calls cs

/-! ## Sample inputs -/

/-- An environment: `DefaultDBType` is `"text"`, `MapKeys` lists the keys in
reverse on its first call and in stored order afterwards, and `%v` renders
integers in decimal and strings as they are. -/
def demoEnv : Env where
  DefaultDBType := "text"
  Sprintf_v := fun v =>
    match v with
    | .mk _ (.basic _ (.int n)) => toString n
    | .mk _ (.basic _ (.str s)) => s
    | _ => "?"
  mapKeys := fun n ks => if n = 0 then ks.reverse else ks

/-- The Go value `int(n)`. -/
def goInt (n : Int) : GoVal := .basic .int (.int n)

/-- The Go value `string(s)`. -/
def goStr (s : String) : GoVal := .basic .string (.str s)

/-- The Go value `[]interface{}{cells...}`. -/
def goRow (cells : List GoVal) : GoVal := .slice .iface cells

/-- The Go value `[][]interface{}{{1, 2}, {3}}`. -/
def raggedRows : GoVal := .slice (.slice .iface) [goRow [goInt 1, goInt 2], goRow [goInt 3]]

/-- The Go value `[][]int{{1, 2}, {3, 4}}`. -/
def intRows : GoVal :=
  .slice (.slice (.basic .int))
    [.slice (.basic .int) [goInt 1, goInt 2], .slice (.basic .int) [goInt 3, goInt 4]]

/-- The Go value `[][]string{{"a", "b"}}`. -/
def stringRows : GoVal :=
  .slice (.slice (.basic .string)) [.slice (.basic .string) [goStr "a", goStr "b"]]

/-- The Go value `[]int{1, 2, 3}`. -/
def intSlice : GoVal := .slice (.basic .int) [goInt 1, goInt 2, goInt 3]

/-- The entries of the Go value `map[string]int{"a": 1, "b": 2}`. -/
def sampleEntries : List (GoVal × GoVal) := [(goStr "a", goInt 1), (goStr "b", goInt 2)]

/-- The fields of the Go type `struct { ID int; Name string }`. -/
def recordFields : List (String × GoType) := [("ID", .basic .int), ("Name", .basic .string)]

/-- The Go value `{ID: id, Name: name}` of that type. -/
def goRecord (id : Int) (name : String) : GoVal :=
  .struct [("ID", .basic .int, goInt id), ("Name", .basic .string, goStr name)]

/-- The Go value `map[float64]int{math.NaN(): 1}`. -/
def nanMap : GoVal := .map (.basic .float64) (.basic .int) [(.basic .float64 .nan, goInt 1)]

/-- The Go value `map[string]interface{}{"a": 1}`. -/
def ifaceMap : GoVal := .map (.basic .string) .iface [(goStr "a", goInt 1)]

/-- The Go value `[]interface{}{1}`. -/
def boxedOne : GoVal := .slice .iface [goInt 1]

/-- The Go value `[]int{1}`. -/
def plainOne : GoVal := .slice (.basic .int) [goInt 1]

/-! ## Loops and sequencing -/

/-- A loop whose every step succeeds collects the results of its steps. -/
theorem mapM_ok_of_forall {α β : Type} (f : α → Except Fault β) (g : α → β) :
    ∀ l : List α, (∀ a ∈ l, f a = .ok (g a)) → l.mapM f = .ok (l.map g)
  | [], _ => rfl
  | a :: l, h => by
      have h1 : f a = .ok (g a) := h a (by simp)
      have h2 : l.mapM f = .ok (l.map g) :=
        mapM_ok_of_forall f g l (fun b hb => h b (by simp [hb]))
      rw [List.mapM_cons, h1, h2]
      rfl

/-- A loop over the indices of a slice that reads element `i` at step `i`. -/
theorem mapM_range_ok {α β : Type} (xs : List α) (F : Nat → Except Fault β) (g : α → β)
    (h : ∀ (i : Nat) (x : α), xs[i]? = some x → F i = .ok (g x)) :
    (List.range xs.length).mapM F = .ok (xs.map g) := by
  induction xs using List.reverseRecOn with
  | nil => rfl
  | append_singleton xs x ih =>
    have h1 : (List.range xs.length).mapM F = .ok (xs.map g) := by
      apply ih
      intro i y hy
      apply h i y
      have hi : i < xs.length := by
        by_contra hc
        rw [List.getElem?_eq_none (by omega)] at hy
        cases hy
      rw [List.getElem?_append_left hi]
      exact hy
    have h2 : F xs.length = .ok (g x) := by
      apply h
      simp
    have h3 : [xs.length].mapM F = .ok [g x] := by
      rw [List.mapM_cons, h2]
      rfl
    rw [List.length_append, List.length_singleton, List.range_succ, List.mapM_append, h1, h3,
      List.map_append]
    rfl

theorem ok_bind {α β : Type} (a : α) (f : α → Except Fault β) :
    (Except.ok a >>= f) = f a := rfl

theorem error_bind {α β : Type} (e : Fault) (f : α → Except Fault β) :
    ((Except.error e : Except Fault α) >>= f) = .error e := rfl

theorem NewSliceReader_single (env : Env) (tableName : String) (v : GoVal) (hv : v ≠ .nil)
    (hm : (ValueOf v).Kind ≠ .Map) (hs : (ValueOf v).Kind ≠ .Slice) :
    NewSliceReader env tableName v =
      .ok ⟨tableName, ["c1"], [typeToDBType env (ValueOf v).Kind], [[v]]⟩ := by
  cases v with
  | nil => exact absurd rfl hv
  | basic k p => cases k <;> rfl
  | slice e xs => exact absurd rfl hs
  | map k e es => exact absurd rfl hm
  | struct fs => rfl

theorem interfaceSliceReader_ok (env : Env) (tableName : String) (x : GoVal)
    (xs : List GoVal) :
    interfaceSliceReader env tableName (.mk (.slice .iface) (.slice .iface (x :: xs))) =
      .ok ⟨tableName, ["c1"], [typeToDBType env (ValueOf x).Kind],
        (x :: xs).map (fun y => [y])⟩ := by
  have hloop : (List.range (x :: xs).length).mapM
      (fun i => do pure [← goIndex (x :: xs) i]) = .ok ((x :: xs).map (fun y => [y])) := by
    apply mapM_range_ok
    intro i y hy
    simp only [goIndex, hy]
    rfl
  have h0 : goIndex (x :: xs) 0 = .ok x := by simp [goIndex]
  simp only [interfaceSliceReader, Value.Interface, assertInterfaceSlice, ok_bind, h0, hloop]
  rfl

theorem NewSliceReader_interfaceSlice (env : Env) (tableName : String) (x : GoVal)
    (xs : List GoVal) :
    NewSliceReader env tableName (.slice .iface (x :: xs)) =
      .ok ⟨tableName, ["c1"], [typeToDBType env (ValueOf x).Kind],
        (x :: xs).map (fun y => [y])⟩ := by
  rw [← interfaceSliceReader_ok]
  simp [NewSliceReader, ValueOf, GoVal.TypeOf, Value.Kind, GoType.Kind, Value.Index, ok_bind]

theorem map_range_getD {α β : Type} (xs : List α) (d : α) (f : α → β) :
    (List.range xs.length).map (fun i => f (xs.getD i d)) = xs.map f := by
  apply List.ext_getElem
  · simp
  · intro i h1 h2
    simp at h1
    simp [List.getD, List.getElem?_eq_getElem h1]

theorem sliceSliceReader_ok (env : Env) (tableName : String) (row0 : List GoVal)
    (rest : List (List GoVal)) :
    sliceSliceReader env tableName
        (.mk (.slice (.slice .iface))
          (.slice (.slice .iface) ((row0 :: rest).map (GoVal.slice .iface)))) =
      .ok ⟨tableName, (List.range row0.length).map (fun i => Sprintf_c_d (i + 1)),
        row0.map (fun c => typeToDBType env (ValueOf c).Kind), row0 :: rest⟩ := by
  have hcols : (List.range row0.length).mapM (fun i => do
        let colType := (ValueOf (← (← (Value.mk (.slice .iface)
          (.slice .iface row0)).Index i).Interface)).Kind
        pure (Sprintf_c_d (i + 1), typeToDBType env colType)) =
      .ok ((List.range row0.length).map (fun i =>
        (Sprintf_c_d (i + 1), typeToDBType env (ValueOf (row0.getD i .nil)).Kind))) := by
    apply mapM_ok_of_forall
    intro i hi
    have hi' : i < row0.length := by simpa using hi
    have hd : row0.getD i .nil = row0[i] := by
      simp [List.getD, List.getElem?_eq_getElem hi']
    simp only [Value.Index, List.getElem?_eq_getElem hi', Value.Interface, ok_bind, hd]
    rfl
  have hdata : (List.range ((row0 :: rest).map (GoVal.slice .iface)).length).mapM (fun i => do
        assertInterfaceSlice (← (← (Value.mk (.slice (.slice .iface))
          (.slice (.slice .iface) ((row0 :: rest).map (GoVal.slice .iface)))).Index i).Interface)) =
      .ok (((row0 :: rest).map (GoVal.slice .iface)).map GoVal.elems) := by
    apply mapM_range_ok
    intro i x hx
    simp only [Value.Index, hx, Value.Interface, ok_bind]
    have hmem : x ∈ (row0 :: rest).map (GoVal.slice .iface) := List.mem_iff_getElem?.2 ⟨i, hx⟩
    obtain ⟨r, _, rfl⟩ := List.mem_map.1 hmem
    rfl
  have helems : ((row0 :: rest).map (GoVal.slice .iface)).map GoVal.elems = row0 :: rest := by
    rw [List.map_map]
    exact List.map_id _
  have hindex0 : (Value.mk (.slice (.slice .iface))
      (.slice (.slice .iface) ((row0 :: rest).map (GoVal.slice .iface)))).Index 0 =
      .ok (.mk (.slice .iface) (.slice .iface row0)) := by
    simp [Value.Index]
  simp only [sliceSliceReader, Value.Len, hindex0, ok_bind, hcols, hdata, helems]
  simp only [pure, Except.pure, List.map_map]
  congr 2
  · exact map_range_getD row0 .nil (fun c => typeToDBType env (ValueOf c).Kind)

theorem NewSliceReader_sliceSlice (env : Env) (tableName : String) (row0 : List GoVal)
    (rest : List (List GoVal)) :
    NewSliceReader env tableName (.slice (.slice .iface) ((row0 :: rest).map (GoVal.slice .iface))) =
      .ok ⟨tableName, (List.range row0.length).map (fun i => Sprintf_c_d (i + 1)),
        row0.map (fun c => typeToDBType env (ValueOf c).Kind), row0 :: rest⟩ := by
  rw [← sliceSliceReader_ok]
  simp [NewSliceReader, ValueOf, GoVal.TypeOf, Value.Kind, GoType.Kind, Value.Index, ok_bind]

theorem structSliceReader_ok (env : Env) (tableName : String) (fs : List (String × GoType))
    (x0 : GoVal) (xs : List GoVal)
    (hty : ∀ x ∈ x0 :: xs, x.TypeOf = some (.struct fs)) :
    structSliceReader env tableName
        (.mk (.slice (.struct fs)) (.slice (.struct fs) (x0 :: xs))) =
      .ok ⟨tableName, fs.map Prod.fst, fs.map (fun f => typeToDBType env f.2.Kind),
        (x0 :: xs).map (fun x => x.fieldSlots.map (renderField env))⟩ := by
  have hcols : (List.range fs.length).mapM (fun i => do
        let f ← (GoType.struct fs).Field i
        pure (f.Name, typeToDBType env f.Typ.Kind)) =
      .ok (fs.map (fun f => (f.1, typeToDBType env f.2.Kind))) := by
    apply mapM_range_ok
    intro i f hf
    simp only [GoType.Field, hf, ok_bind]
    rfl
  have hrow : ∀ x ∈ x0 :: xs,
      (List.range fs.length).mapM (fun j => do
        pure (GoVal.ofString (env.Sprintf_v (← (Value.mk (.struct fs) x).Field j)))) =
      .ok (x.fieldSlots.map (renderField env)) := by
    intro x hx
    have hx' := hty x hx
    cases x with
    | nil => simp [GoVal.TypeOf] at hx'
    | basic k p => simp [GoVal.TypeOf] at hx'
    | slice e ys => simp [GoVal.TypeOf] at hx'
    | map k e es => simp [GoVal.TypeOf] at hx'
    | struct vs =>
      have hfs : fs = structFieldTypes vs := by
        simp only [GoVal.TypeOf, Option.some.injEq, GoType.struct.injEq] at hx'
        exact hx'.symm
      have hlen : fs.length = vs.length := by rw [hfs]; simp [structFieldTypes]
      rw [hlen, GoVal.fieldSlots]
      have := mapM_range_ok vs (fun j => do
        pure (GoVal.ofString (env.Sprintf_v (← (Value.mk (.struct fs) (.struct vs)).Field j))))
        (fun f => renderField env (Value.mk f.2.1 f.2.2)) (by
          intro j v hv
          have hfj : fs[j]? = some (v.1, v.2.1) := by
            rw [hfs]; simp [structFieldTypes, hv]
          simp only [Value.Field, hfj, hv, ok_bind]
          rfl)
      rw [this, List.map_map]
      rfl
  have hdata : (List.range (x0 :: xs).length).mapM (fun i => do
        let rows ← (Value.mk (.slice (.struct fs)) (.slice (.struct fs) (x0 :: xs))).Index i
        let r ← (List.range (← rows.NumField)).mapM (fun j => do
          pure (GoVal.ofString (env.Sprintf_v (← rows.Field j))))
        pure r) =
      .ok ((x0 :: xs).map (fun x => x.fieldSlots.map (renderField env))) := by
    apply mapM_range_ok
    intro i x hx
    have hmem : x ∈ x0 :: xs := List.mem_iff_getElem?.2 ⟨i, hx⟩
    simp only [Value.Index, hx, ok_bind, Value.NumField, GoType.NumField, hrow x hmem]
    rfl
  have hindex0 : (Value.mk (.slice (.struct fs)) (.slice (.struct fs) (x0 :: xs))).Index 0 =
      .ok (.mk (.struct fs) x0) := by
    simp [Value.Index]
  simp only [structSliceReader, Value.Len, hindex0, ok_bind, Value.Type, GoType.NumField, hcols,
    hdata]
  simp only [pure, Except.pure, List.map_map]
  rfl

theorem NewSliceReader_structSlice (env : Env) (tableName : String)
    (fs : List (String × GoType)) (x0 : GoVal) (xs : List GoVal)
    (hty : ∀ x ∈ x0 :: xs, x.TypeOf = some (.struct fs)) :
    NewSliceReader env tableName (.slice (.struct fs) (x0 :: xs)) =
      .ok ⟨tableName, fs.map Prod.fst, fs.map (fun f => typeToDBType env f.2.Kind),
        (x0 :: xs).map (fun x => x.fieldSlots.map (renderField env))⟩ := by
  rw [← structSliceReader_ok env tableName fs x0 xs hty]
  simp [NewSliceReader, ValueOf, GoVal.TypeOf, Value.Kind, GoType.Kind, Value.Index, ok_bind]

mutual
/-- Two values that `==` finds equal are the same value. -/
theorem goEq_eq : ∀ a b : GoVal, GoVal.goEq a b = true → a = b
  | .nil, .nil, _ => rfl
  | .basic k p, .basic l q, h => by
      simp only [GoVal.goEq, Bool.and_eq_true, decide_eq_true_eq] at h
      rw [h.1.1, h.1.2]
  | .struct xs, .struct ys, h => by
      rw [GoVal.goEq] at h
      rw [goEqFields_eq xs ys h]
  | .nil, .basic _ _, h => by simp [GoVal.goEq] at h
  | .nil, .slice _ _, h => by simp [GoVal.goEq] at h
  | .nil, .map _ _ _, h => by simp [GoVal.goEq] at h
  | .nil, .struct _, h => by simp [GoVal.goEq] at h
  | .basic _ _, .nil, h => by simp [GoVal.goEq] at h
  | .basic _ _, .slice _ _, h => by simp [GoVal.goEq] at h
  | .basic _ _, .map _ _ _, h => by simp [GoVal.goEq] at h
  | .basic _ _, .struct _, h => by simp [GoVal.goEq] at h
  | .slice _ _, .nil, h => by simp [GoVal.goEq] at h
  | .slice _ _, .basic _ _, h => by simp [GoVal.goEq] at h
  | .slice _ _, .slice _ _, h => by simp [GoVal.goEq] at h
  | .slice _ _, .map _ _ _, h => by simp [GoVal.goEq] at h
  | .slice _ _, .struct _, h => by simp [GoVal.goEq] at h
  | .map _ _ _, .nil, h => by simp [GoVal.goEq] at h
  | .map _ _ _, .basic _ _, h => by simp [GoVal.goEq] at h
  | .map _ _ _, .slice _ _, h => by simp [GoVal.goEq] at h
  | .map _ _ _, .map _ _ _, h => by simp [GoVal.goEq] at h
  | .map _ _ _, .struct _, h => by simp [GoVal.goEq] at h
  | .struct _, .nil, h => by simp [GoVal.goEq] at h
  | .struct _, .basic _ _, h => by simp [GoVal.goEq] at h
  | .struct _, .slice _ _, h => by simp [GoVal.goEq] at h
  | .struct _, .map _ _ _, h => by simp [GoVal.goEq] at h
/-- Two field lists that `==` finds equal are the same list. -/
theorem goEqFields_eq : ∀ xs ys : List (String × GoType × GoVal),
    GoVal.goEqFields xs ys = true → xs = ys
  | [], [], _ => rfl
  | (n, t, x) :: r, (m, u, y) :: s, h => by
      simp only [GoVal.goEqFields, Bool.and_eq_true, decide_eq_true_eq] at h
      rw [h.1.1.1, h.1.1.2, goEq_eq x y h.1.2, goEqFields_eq r s h.2]
  | [], _ :: _, h => by simp [GoVal.goEqFields] at h
  | _ :: _, [], h => by simp [GoVal.goEqFields] at h
end

/-- In a map (distinct keys) every entry whose key equals itself is found under
its key. -/
theorem mapLookup_of_mem :
    ∀ (es : List (GoVal × GoVal)), (es.map Prod.fst).Nodup → ∀ (k v : GoVal), (k, v) ∈ es →
      GoVal.goEq k k = true → mapLookup es k = some v
  | [], _, _, _, h, _ => by simp at h
  | (a, b) :: es, hnd, k, v, h, hk => by
      rw [List.map_cons, List.nodup_cons] at hnd
      rcases List.mem_cons.1 h with h1 | h1
      · cases h1
        simp [mapLookup, List.find?, hk]
      · have hne : GoVal.goEq a k = false := by
          cases hak : GoVal.goEq a k with
          | false => rfl
          | true =>
            exfalso
            apply hnd.1
            rw [goEq_eq a k hak]
            exact List.mem_map.2 ⟨(k, v), h1, rfl⟩
        have ih := mapLookup_of_mem es hnd.2 k v h1 hk
        simpa [mapLookup, List.find?, hne] using ih

/-- The element stored under a key of the map that equals itself. -/
theorem mapLookup_of_mem_keys (es : List (GoVal × GoVal))
    (hnd : (es.map Prod.fst).Nodup) (k : GoVal) (hk : k ∈ es.map Prod.fst)
    (hself : GoVal.goEq k k = true) :
    ∃ v, (k, v) ∈ es ∧ mapLookup es k = some v := by
  obtain ⟨e, he, rfl⟩ := List.mem_map.1 hk
  exact ⟨e.2, he, mapLookup_of_mem es hnd e.1 e.2 he hself⟩

theorem mapSliceReader_ok (env : Env) (tableName : String) (kt et : GoType)
    (es : List (GoVal × GoVal)) (hne : es ≠ []) (hnd : (es.map Prod.fst).Nodup)
    (hself : ∀ k ∈ es.map Prod.fst, GoVal.goEq k k = true) (hv : env.MapKeysValid) :
    mapSliceReader env tableName (.mk (.map kt et) (.map kt et es)) =
      .ok ⟨tableName, ["c1", "c2"], [typeToDBType env kt.Kind, typeToDBType env et.Kind],
        (env.mapKeys 2 (es.map Prod.fst)).map (mapRow es)⟩ := by
  have hkeys : ∀ n, (Value.mk (.map kt et) (.map kt et es)).MapKeys (env.mapKeys n) =
      .ok ((env.mapKeys n (es.map Prod.fst)).map (Value.mk kt)) := fun n => rfl
  have hmem : ∀ n k, k ∈ env.mapKeys n (es.map Prod.fst) → k ∈ es.map Prod.fst :=
    fun n k hk => (hv n _).mem_iff.1 hk
  have hfirst : ∀ n, ∃ k rest, env.mapKeys n (es.map Prod.fst) = k :: rest := by
    intro n
    cases hks : env.mapKeys n (es.map Prod.fst) with
    | nil =>
      have := (hv n (es.map Prod.fst)).length_eq
      rw [hks] at this
      simp only [List.length_nil, List.length_map] at this
      exact absurd (List.length_eq_zero.1 this.symm) hne
    | cons k rest => exact ⟨k, rest, rfl⟩
  have hindex : ∀ k, k ∈ es.map Prod.fst → ∃ x,
      (Value.mk (.map kt et) (.map kt et es)).MapIndex (.mk kt k) = .ok (.mk et x) ∧
      mapLookup es k = some x := by
    intro k hk
    obtain ⟨x, _, hx⟩ := mapLookup_of_mem_keys es hnd k hk (hself k hk)
    exact ⟨x, by simp only [Value.MapIndex, hx], hx⟩
  have hdata : ((env.mapKeys 2 (es.map Prod.fst)).map (Value.mk kt)).mapM (fun e => do
        let k ← e.Interface
        let v ← (← (Value.mk (.map kt et) (.map kt et es)).MapIndex e).Interface
        pure [k, v]) =
      .ok (((env.mapKeys 2 (es.map Prod.fst)).map (Value.mk kt)).map
        (fun e => match e with
          | .mk _ k => mapRow es k
          | .zero => [])) := by
    apply mapM_ok_of_forall
    intro e he
    obtain ⟨k, hk, rfl⟩ := List.mem_map.1 he
    obtain ⟨x, hx, hl⟩ := hindex k (hmem 2 k hk)
    simp only [Value.Interface, ok_bind, hx, mapRow, hl]
    rfl
  obtain ⟨k0, r0, h0⟩ := hfirst 0
  obtain ⟨k1, r1, h1⟩ := hfirst 1
  have hk1 : k1 ∈ es.map Prod.fst := hmem 1 k1 (by rw [h1]; simp)
  obtain ⟨x1, hx1, _⟩ := hindex k1 hk1
  have hg0 : goIndex ((env.mapKeys 0 (es.map Prod.fst)).map (Value.mk kt)) 0 =
      .ok (.mk kt k0) := by simp [goIndex, h0]
  have hg1 : goIndex ((env.mapKeys 1 (es.map Prod.fst)).map (Value.mk kt)) 0 =
      .ok (.mk kt k1) := by simp [goIndex, h1]
  simp only [mapSliceReader, Indirect, hkeys, ok_bind, hg0, hg1, hx1, hdata, List.map_map]
  rfl

theorem NewSliceReader_map (env : Env) (tableName : String) (kt et : GoType)
    (es : List (GoVal × GoVal)) (hne : es ≠ []) (hnd : (es.map Prod.fst).Nodup)
    (hself : ∀ k ∈ es.map Prod.fst, GoVal.goEq k k = true) (hv : env.MapKeysValid) :
    NewSliceReader env tableName (.map kt et es) =
      .ok ⟨tableName, ["c1", "c2"], [typeToDBType env kt.Kind, typeToDBType env et.Kind],
        (env.mapKeys 2 (es.map Prod.fst)).map (mapRow es)⟩ := by
  rw [← mapSliceReader_ok env tableName kt et es hne hnd hself hv]
  rfl

/-- The rows of a map table are the entries of the map, in some order. -/
theorem mapRows_perm (env : Env) (es : List (GoVal × GoVal))
    (hnd : (es.map Prod.fst).Nodup)
    (hself : ∀ k ∈ es.map Prod.fst, GoVal.goEq k k = true) (hv : env.MapKeysValid) :
    ((env.mapKeys 2 (es.map Prod.fst)).map (mapRow es)).Perm
      (es.map (fun e => [e.1, e.2])) := by
  have h1 : ((env.mapKeys 2 (es.map Prod.fst)).map (mapRow es)).Perm
      ((es.map Prod.fst).map (mapRow es)) := (hv 2 _).map _
  have h2 : (es.map Prod.fst).map (mapRow es) = es.map (fun e => [e.1, e.2]) := by
    rw [List.map_map]
    apply List.map_congr_left
    intro e he
    simp [mapRow, mapLookup_of_mem es hnd e.1 e.2 he
      (hself e.1 (List.mem_map.2 ⟨e, he, rfl⟩))]
  rw [← h2]
  exact h1

/-! ## Decimal rendering is injective -/

theorem digitVal_digitChar (m : Nat) (h : m < 10) : digitVal (Nat.digitChar m) = m := by
  interval_cases m <;> rfl

theorem foldl_toDigitsCore : ∀ (fuel n : Nat) (ds : List Char), n < fuel →
    (Nat.toDigitsCore 10 fuel n ds).foldl decodeStep 0 = ds.foldl decodeStep n
  | 0, n, ds, h => by omega
  | fuel + 1, n, ds, h => by
      have hd : digitVal (Nat.digitChar (n % 10)) = n % 10 :=
        digitVal_digitChar _ (Nat.mod_lt _ (by decide))
      rw [Nat.toDigitsCore]
      by_cases h0 : n / 10 = 0
      · simp only [h0, if_true, List.foldl_cons, decodeStep, hd]
        congr 1
        omega
      · simp only [h0, if_false]
        rw [foldl_toDigitsCore fuel (n / 10) _ (by omega)]
        simp only [List.foldl_cons, decodeStep, hd]
        congr 1
        omega

theorem toString_nat_injective (a b : Nat) (h : toString a = toString b) : a = b := by
  have h1 : Nat.toDigits 10 a = Nat.toDigits 10 b := by
    have := congrArg String.data h
    simpa [toString, Nat.repr, List.asString] using this
  have ha := foldl_toDigitsCore (a + 1) a [] (by omega)
  have hb := foldl_toDigitsCore (b + 1) b [] (by omega)
  simp only [List.foldl_nil] at ha hb
  rw [← ha, ← hb]
  exact congrArg (fun l => List.foldl decodeStep 0 l) h1

theorem Sprintf_c_d_injective (a b : Nat) (h : Sprintf_c_d a = Sprintf_c_d b) : a = b := by
  apply toString_nat_injective
  have := congrArg String.data h
  simp only [Sprintf_c_d, String.data_append, List.append_cancel_left_eq] at this
  exact String.ext this

/-- The synthesized column names are pairwise distinct. -/
theorem columnNames_nodup (n : Nat) :
    ((List.range n).map (fun i => Sprintf_c_d (i + 1))).Nodup := by
  apply List.Nodup.map _ (List.nodup_range n)
  intro a b h
  have := Sprintf_c_d_injective _ _ h
  omega

theorem demoEnv_mapKeysValid : demoEnv.MapKeysValid := by
  intro n ks
  show (if n = 0 then ks.reverse else ks).Perm ks
  split
  · exact List.reverse_perm ks
  · exact List.Perm.refl ks

/-! ## What a returned table looks like -/

theorem bind_eq_ok {α β : Type} (x : Except Fault α) (f : α → Except Fault β) (b : β) :
    (x >>= f) = .ok b ↔ ∃ a, x = .ok a ∧ f a = .ok b := by
  cases x with
  | error e => simp [error_bind]
  | ok a => simp [ok_bind]

theorem pure_eq_ok {α : Type} (a b : α) : (pure a : Except Fault α) = .ok b ↔ a = b := by
  show Except.ok a = Except.ok b ↔ a = b
  simp

/-- Every result a successful loop collects is the result of one of its steps. -/
theorem mapM_ok_mem {α β : Type} (F : α → Except Fault β) :
    ∀ (l : List α) (ys : List β), l.mapM F = .ok ys → ∀ y ∈ ys, ∃ a ∈ l, F a = .ok y
  | [], ys, h, y, hy => by
      have : ys = [] := by
        have h' : (Except.ok [] : Except Fault (List β)) = .ok ys := h
        cases h'
        rfl
      rw [this] at hy
      cases hy
  | a :: l, ys, h, y, hy => by
      rw [List.mapM_cons, bind_eq_ok] at h
      obtain ⟨b, hb, h⟩ := h
      rw [bind_eq_ok] at h
      obtain ⟨bs, hbs, h⟩ := h
      have hys : ys = b :: bs := by
        have h' : (Except.ok (b :: bs) : Except Fault (List β)) = .ok ys := h
        cases h'
        rfl
      rw [hys] at hy
      rcases List.mem_cons.1 hy with rfl | hy'
      · exact ⟨a, by simp, hb⟩
      · obtain ⟨a', ha', hF⟩ := mapM_ok_mem F l bs hbs y hy'
        exact ⟨a', by simp [ha'], hF⟩

/-- A successful loop collects one result per step. -/
theorem mapM_ok_length {α β : Type} (F : α → Except Fault β) :
    ∀ (l : List α) (ys : List β), l.mapM F = .ok ys → ys.length = l.length
  | [], ys, h => by
      have h' : (Except.ok [] : Except Fault (List β)) = .ok ys := h
      cases h'
      rfl
  | a :: l, ys, h => by
      rw [List.mapM_cons, bind_eq_ok] at h
      obtain ⟨b, _, h⟩ := h
      rw [bind_eq_ok] at h
      obtain ⟨bs, hbs, h⟩ := h
      have h' : (Except.ok (b :: bs) : Except Fault (List β)) = .ok ys := h
      cases h'
      simp [mapM_ok_length F l bs hbs]

theorem mapSliceReader_shape (env : Env) (tableName : String) (val : Value) (r : SliceReader)
    (h : mapSliceReader env tableName val = .ok r) :
    r.types.length = r.names.length ∧ ∀ row ∈ r.data, row.length = r.names.length := by
  simp only [mapSliceReader, bind_eq_ok, pure_eq_ok] at h
  obtain ⟨_, _, _, _, _, _, _, _, _, _, keys, _, data, hdata, rfl⟩ := h
  refine ⟨rfl, ?_⟩
  intro row hrow
  obtain ⟨e, _, he⟩ := mapM_ok_mem _ _ _ hdata row hrow
  simp only [bind_eq_ok, pure_eq_ok] at he
  obtain ⟨_, _, _, _, _, _, rfl⟩ := he
  rfl

theorem interfaceSliceReader_shape (env : Env) (tableName : String) (val : Value)
    (r : SliceReader) (h : interfaceSliceReader env tableName val = .ok r) :
    r.types.length = r.names.length ∧ ∀ row ∈ r.data, row.length = r.names.length := by
  simp only [interfaceSliceReader, bind_eq_ok, pure_eq_ok] at h
  obtain ⟨_, _, _, _, _, _, data, hdata, rfl⟩ := h
  refine ⟨rfl, ?_⟩
  intro row hrow
  obtain ⟨i, _, hi⟩ := mapM_ok_mem _ _ _ hdata row hrow
  simp only [bind_eq_ok, pure_eq_ok] at hi
  obtain ⟨_, _, rfl⟩ := hi
  rfl

theorem structSliceReader_shape (env : Env) (tableName : String) (val : Value)
    (r : SliceReader) (h : structSliceReader env tableName val = .ok r) :
    r.types.length = r.names.length ∧ ∀ row ∈ r.data, row.length = r.names.length := by
  simp only [structSliceReader, bind_eq_ok, pure_eq_ok] at h
  obtain ⟨len, _, v0, hv0, t, ht, n, hn, cols, hcols, data, hdata, rfl⟩ := h
  refine ⟨by simp, ?_⟩
  intro row hrow
  obtain ⟨i, _, hi⟩ := mapM_ok_mem _ _ _ hdata row hrow
  simp only [bind_eq_ok, pure_eq_ok] at hi
  obtain ⟨rows, hrows, m, hm, cells, hcells, rfl⟩ := hi
  have hlen := mapM_ok_length _ _ _ hcells
  have hclen := mapM_ok_length _ _ _ hcols
  simp only [List.length_range] at hlen hclen
  simp only [List.length_map, hlen, hclen]
  cases val with
  | zero => simp [Value.Index] at hv0
  | mk typ v =>
    cases typ with
    | slice e =>
      cases v with
      | slice e' xs =>
        simp only [Value.Index] at hv0 hrows
        split at hv0
        · split at hrows
          · cases hv0
            cases hrows
            simp only [Value.Type] at ht
            cases ht
            simp only [Value.NumField] at hm
            rw [hn] at hm
            cases hm
            rfl
          · cases hrows
        · cases hv0
      | nil => simp [Value.Index] at hv0
      | basic k p => simp [Value.Index] at hv0
      | map k e' es => simp [Value.Index] at hv0
      | struct fs => simp [Value.Index] at hv0
    | basic k => simp [Value.Index] at hv0
    | iface => simp [Value.Index] at hv0
    | map k e => simp [Value.Index] at hv0
    | struct fs => simp [Value.Index] at hv0

theorem sliceSliceReader_shape (env : Env) (tableName : String) (e : GoType)
    (xs : List GoVal) (r : SliceReader)
    (h : sliceSliceReader env tableName (.mk (.slice e) (.slice e xs)) = .ok r) :
    r.types.length = r.names.length ∧
    ((∀ x ∈ xs, x.elems.length = (xs.headD .nil).elems.length) →
      ∀ row ∈ r.data, row.length = r.names.length) := by
  simp only [sliceSliceReader, bind_eq_ok, pure_eq_ok] at h
  obtain ⟨len, _, col, hcol, n, hn, cols, hcols, data, hdata, rfl⟩ := h
  refine ⟨by simp, ?_⟩
  intro hrect row hrow
  have hclen := mapM_ok_length _ _ _ hcols
  simp only [List.length_range] at hclen
  simp only [List.length_map, hclen]
  obtain ⟨i, _, hi⟩ := mapM_ok_mem _ _ _ hdata row hrow
  simp only [bind_eq_ok] at hi
  obtain ⟨vi, hvi, x, hx, hrowx⟩ := hi
  simp only [Value.Index] at hvi hcol
  cases hxi : xs[i]? with
  | none => simp [hxi] at hvi
  | some y =>
    simp only [hxi] at hvi
    cases hvi
    simp only [Value.Interface, Except.ok.injEq] at hx
    subst hx
    have hmem : y ∈ xs := List.mem_iff_getElem?.2 ⟨i, hxi⟩
    have hy : y.elems = row := by
      cases y with
      | slice c cells =>
        cases c with
        | iface =>
          simp only [assertInterfaceSlice, Except.ok.injEq] at hrowx
          exact hrowx
        | basic k => simp [assertInterfaceSlice] at hrowx
        | slice c' => simp [assertInterfaceSlice] at hrowx
        | map k c' => simp [assertInterfaceSlice] at hrowx
        | struct fs => simp [assertInterfaceSlice] at hrowx
      | nil => simp [assertInterfaceSlice] at hrowx
      | basic k p => simp [assertInterfaceSlice] at hrowx
      | map k c es => simp [assertInterfaceSlice] at hrowx
      | struct fs => simp [assertInterfaceSlice] at hrowx
    rw [← hy, hrect y hmem]
    cases xs with
    | nil => simp at hxi
    | cons x0 rest =>
      simp only [List.getElem?_cons_zero] at hcol
      cases hcol
      simp only [List.headD_cons]
      cases e with
      | slice c =>
        cases x0 with
        | slice c' cells =>
          simp only [Value.Len, Except.ok.injEq] at hn
          rw [← hn]
          rfl
        | nil => simp [Value.Len] at hn
        | basic k p => simp [Value.Len] at hn
        | map k c' es => simp [Value.Len] at hn
        | struct fs => simp [Value.Len] at hn
      | basic k => simp [Value.Len] at hn
      | iface => simp [Value.Len] at hn
      | map k c => simp [Value.Len] at hn
      | struct fs => simp [Value.Len] at hn

/-- The dispatch of `NewSliceReader` on a non-empty slice. -/
theorem NewSliceReader_slice_cons (env : Env) (tableName : String) (e : GoType) (x0 : GoVal)
    (xs : List GoVal) :
    NewSliceReader env tableName (.slice e (x0 :: xs)) =
      (match (Value.mk e x0).Kind with
        | .Struct => structSliceReader env tableName (.mk (.slice e) (.slice e (x0 :: xs)))
        | .Slice => sliceSliceReader env tableName (.mk (.slice e) (.slice e (x0 :: xs)))
        | _ => interfaceSliceReader env tableName (.mk (.slice e) (.slice e (x0 :: xs)))) := by
  simp only [NewSliceReader, ValueOf, GoVal.TypeOf, Value.Kind, GoType.Kind, Value.Index,
    List.getElem?_cons_zero, ok_bind]

/-- The shape of every table `NewSliceReader` returns. -/
theorem NewSliceReader_shape (env : Env) (tableName : String) (args : GoVal) (r : SliceReader)
    (h : NewSliceReader env tableName args = .ok r) :
    r.types.length = r.names.length ∧
    (Rectangular args = true → ∀ row ∈ r.data, row.length = r.names.length) := by
  cases args with
  | nil =>
    have hrun : NewSliceReader env tableName .nil = .error .zeroValue := rfl
    rw [hrun] at h
    cases h
  | basic k p =>
    rw [NewSliceReader_single env tableName (.basic k p) (by simp)
      (by cases k <;> simp [ValueOf, GoVal.TypeOf, Value.Kind, GoType.Kind, BasicKind.Kind])
      (by cases k <;> simp [ValueOf, GoVal.TypeOf, Value.Kind, GoType.Kind, BasicKind.Kind])] at h
    cases h
    exact ⟨rfl, fun _ row hrow => by simp at hrow; rw [hrow]; rfl⟩
  | struct fs =>
    have hrun := NewSliceReader_single env tableName (.struct fs) (by simp)
      (by simp [ValueOf, GoVal.TypeOf, Value.Kind, GoType.Kind])
      (by simp [ValueOf, GoVal.TypeOf, Value.Kind, GoType.Kind])
    rw [hrun] at h
    cases h
    exact ⟨rfl, fun _ row hrow => by simp at hrow; rw [hrow]; rfl⟩
  | map kt et es =>
    have hrun : NewSliceReader env tableName (.map kt et es) =
        mapSliceReader env tableName (ValueOf (.map kt et es)) := rfl
    rw [hrun] at h
    have := mapSliceReader_shape env tableName _ r h
    exact ⟨this.1, fun _ => this.2⟩
  | slice e xs =>
    cases xs with
    | nil =>
      have hrun : NewSliceReader env tableName (.slice e []) = .error .indexOutOfRange := rfl
      rw [hrun] at h
      cases h
    | cons x0 rest =>
      rw [NewSliceReader_slice_cons] at h
      split at h
      · have := structSliceReader_shape env tableName _ r h
        exact ⟨this.1, fun _ => this.2⟩
      · rename_i hk
        have := sliceSliceReader_shape env tableName e (x0 :: rest) r h
        refine ⟨this.1, fun hr => this.2 ?_⟩
        cases e with
        | slice c =>
          simpa [Rectangular] using hr
        | basic k => cases k <;> simp [Value.Kind, GoType.Kind, BasicKind.Kind] at hk
        | iface => simp [Value.Kind, GoType.Kind] at hk
        | map k c => simp [Value.Kind, GoType.Kind] at hk
        | struct fs => simp [Value.Kind, GoType.Kind] at hk
      · have := interfaceSliceReader_shape env tableName _ r h
        exact ⟨this.1, fun _ => this.2⟩

/-! ## C1: the tabular invariant -/

/-- C1, as stated, fails: the slice of slices `[][]interface{}{{1, 2}, {3}}` is a
supported shape, and the table built from it has two column names and the
one-cell row `[3]`. -/
theorem tabular_invariant_fails_on_ragged_rows :
    SupportedShape raggedRows ∧
    NewSliceReader demoEnv "t" raggedRows =
      .ok ⟨"t", ["c1", "c2"], ["int", "int"], [[goInt 1, goInt 2], [goInt 3]]⟩ ∧
    ¬ (∀ r, NewSliceReader demoEnv "t" raggedRows = .ok r →
        ∀ row ∈ r.PreReadRow, row.length = r.Names.1.length) := by
  have hrun : NewSliceReader demoEnv "t" raggedRows =
      .ok ⟨"t", ["c1", "c2"], ["int", "int"], [[goInt 1, goInt 2], [goInt 3]]⟩ := rfl
  refine ⟨SupportedShape.sliceSlice [goInt 1, goInt 2] [[goInt 3]], hrun, ?_⟩
  intro h
  have := h _ hrun [goInt 3] (by simp [SliceReader.PreReadRow])
  simp [SliceReader.Names] at this

/-- C1, amended: for every input, the five supported shapes among them, in
which, for a slice of slices, every row has as many cells as element 0, the
table built by `NewSliceReader` satisfies `len(Types()) == len(Names())`, and
every row returned by `PreReadRow` has exactly `len(Names())` cells. -/
theorem tabular_invariant (env : Env) (tableName : String) (args : GoVal) (r : SliceReader)
    (h : NewSliceReader env tableName args = .ok r) (hr : Rectangular args = true) :
    r.Types.1.length = r.Names.1.length ∧
    ∀ row ∈ r.PreReadRow, row.length = r.Names.1.length :=
  ⟨(NewSliceReader_shape env tableName args r h).1,
    (NewSliceReader_shape env tableName args r h).2 hr⟩

/-- C1 at the rows `[][]interface{}{{1, 2}, {3, 4}}`. -/
theorem tabular_invariant_witness :
    NewSliceReader demoEnv "t"
        (.slice (.slice .iface) [goRow [goInt 1, goInt 2], goRow [goInt 3, goInt 4]]) =
      .ok ⟨"t", ["c1", "c2"], ["int", "int"], [[goInt 1, goInt 2], [goInt 3, goInt 4]]⟩ ∧
    Rectangular
      (.slice (.slice .iface) [goRow [goInt 1, goInt 2], goRow [goInt 3, goInt 4]]) = true ∧
    (SliceReader.mk "t" ["c1", "c2"] ["int", "int"]
        [[goInt 1, goInt 2], [goInt 3, goInt 4]]).Types.1.length =
      (SliceReader.mk "t" ["c1", "c2"] ["int", "int"]
        [[goInt 1, goInt 2], [goInt 3, goInt 4]]).Names.1.length ∧
    ∀ row ∈ (SliceReader.mk "t" ["c1", "c2"] ["int", "int"]
        [[goInt 1, goInt 2], [goInt 3, goInt 4]]).PreReadRow,
      row.length = (SliceReader.mk "t" ["c1", "c2"] ["int", "int"]
        [[goInt 1, goInt 2], [goInt 3, goInt 4]]).Names.1.length :=
  ⟨rfl, by decide,
    tabular_invariant demoEnv "t"
      (.slice (.slice .iface) [goRow [goInt 1, goInt 2], goRow [goInt 3, goInt 4]]) _ rfl
      (by decide)⟩

/-! ## C2: a bare scalar -/

/-- C2: for every scalar input `v` (a value whose kind is neither map nor
slice), `NewSliceReader` yields the names `["c1"]`, the one row `[v]`, and one
type tag, which is `"int"` if and only if the kind of `v` is a signed integer
kind and is `DefaultDBType` otherwise. -/
theorem scalar_table (env : Env) (tableName : String) (v : GoVal) (hv : v ≠ .nil)
    (hm : (ValueOf v).Kind ≠ .Map) (hs : (ValueOf v).Kind ≠ .Slice)
    (hd : env.DefaultDBType ≠ "int") :
    ∃ r tag, NewSliceReader env tableName v = .ok r ∧
      r.Names = (["c1"], none) ∧ r.PreReadRow = [[v]] ∧ r.Types = ([tag], none) ∧
      (tag = "int" ↔ isSignedInt (ValueOf v).Kind = true) ∧
      (isSignedInt (ValueOf v).Kind = false → tag = env.DefaultDBType) := by
  refine ⟨_, typeToDBType env (ValueOf v).Kind,
    NewSliceReader_single env tableName v hv hm hs, rfl, rfl, rfl, ?_, ?_⟩
  · cases (ValueOf v).Kind <;> simp [typeToDBType, isSignedInt, hd]
  · cases (ValueOf v).Kind <;> simp [typeToDBType, isSignedInt]

/-- C2 at the inputs `int(3)`. -/
theorem scalar_table_witness :
    goInt 3 ≠ .nil ∧ (ValueOf (goInt 3)).Kind ≠ .Map ∧ (ValueOf (goInt 3)).Kind ≠ .Slice ∧
    demoEnv.DefaultDBType ≠ "int" ∧
    ∃ r tag, NewSliceReader demoEnv "t" (goInt 3) = .ok r ∧
      r.Names = (["c1"], none) ∧ r.PreReadRow = [[goInt 3]] ∧ r.Types = ([tag], none) ∧
      (tag = "int" ↔ isSignedInt (ValueOf (goInt 3)).Kind = true) ∧
      (isSignedInt (ValueOf (goInt 3)).Kind = false → tag = demoEnv.DefaultDBType) :=
  ⟨by decide, by decide, by decide, by decide,
    scalar_table demoEnv "t" (goInt 3) (by decide) (by decide) (by decide) (by decide)⟩

/-! ## C3: a map -/

/-- C3, as stated, fails: for the map `map[float64]int{math.NaN(): 1}` the key is
not found by `MapIndex`, the row loop panics in `Interface()` on the zero Value,
and no table comes back. -/
theorem map_table_fails_on_nan_key :
    NewSliceReader demoEnv "t" nanMap = .error .zeroValue ∧
    ¬ ∃ r, NewSliceReader demoEnv "t" nanMap = .ok r ∧ r.Names = (["c1", "c2"], none) := by
  have hrun : NewSliceReader demoEnv "t" nanMap = .error .zeroValue := rfl
  refine ⟨hrun, ?_⟩
  rintro ⟨r, hr, _⟩
  rw [hrun] at hr
  cases hr

/-- C3, amended: for every non-empty map `m` none of whose keys is a NaN (every
key is `==` to itself), `NewSliceReader` yields the names `["c1", "c2"]` and as
many rows as `m` has entries; every row is `[k, m[k]]` for a key `k` of `m`; the
rows are, up to order, the entries of `m`; and every key heads exactly one
row. -/
theorem map_table (env : Env) (tableName : String) (kt et : GoType)
    (es : List (GoVal × GoVal)) (hne : es ≠ []) (hnd : (es.map Prod.fst).Nodup)
    (hself : ∀ k ∈ es.map Prod.fst, GoVal.goEq k k = true) (hv : env.MapKeysValid) :
    ∃ r, NewSliceReader env tableName (.map kt et es) = .ok r ∧
      r.Names = (["c1", "c2"], none) ∧
      r.PreReadRow.length = es.length ∧
      (∀ row ∈ r.PreReadRow, ∃ k v, k ∈ es.map Prod.fst ∧ mapLookup es k = some v ∧
        row = [k, v]) ∧
      r.PreReadRow.Perm (es.map (fun e => [e.1, e.2])) ∧
      (∀ k ∈ es.map Prod.fst,
        (r.PreReadRow.filter (fun row => decide (row.head? = some k))).length = 1) := by
  have hperm := mapRows_perm env es hnd hself hv
  refine ⟨_, NewSliceReader_map env tableName kt et es hne hnd hself hv, rfl, ?_, ?_, hperm, ?_⟩
  · simpa [SliceReader.PreReadRow] using hperm.length_eq
  · intro row hrow
    simp only [SliceReader.PreReadRow, List.mem_map] at hrow
    obtain ⟨k, hk, rfl⟩ := hrow
    have hk' : k ∈ es.map Prod.fst := (hv 2 _).mem_iff.1 hk
    obtain ⟨v, _, hl⟩ := mapLookup_of_mem_keys es hnd k hk' (hself k hk')
    exact ⟨k, v, hk', hl, by simp [mapRow, hl]⟩
  · intro k hk
    have h1 := (hperm.filter (fun row => decide (row.head? = some k))).length_eq
    simp only [SliceReader.PreReadRow]
    rw [h1, ← List.countP_eq_length_filter, List.countP_map]
    have h2 : List.countP ((fun row => decide (row.head? = some k)) ∘
        fun e : GoVal × GoVal => [e.1, e.2]) es = (es.map Prod.fst).count k := by
      rw [List.count, List.countP_map]
      apply List.countP_congr
      intro e _
      simp only [Function.comp, List.head?_cons, Option.some.injEq, decide_eq_true_eq,
        beq_iff_eq]
    rw [h2]
    exact List.count_eq_one_of_mem hnd hk

/-- C3 at the map `map[string]int{"a": 1, "b": 2}`. -/
theorem map_table_witness :
    sampleEntries ≠ [] ∧ (sampleEntries.map Prod.fst).Nodup ∧
    (∀ k ∈ sampleEntries.map Prod.fst, GoVal.goEq k k = true) ∧ demoEnv.MapKeysValid ∧
    ∃ r, NewSliceReader demoEnv "t" (.map (.basic .string) (.basic .int) sampleEntries) = .ok r ∧
      r.Names = (["c1", "c2"], none) ∧
      r.PreReadRow.length = sampleEntries.length ∧
      (∀ row ∈ r.PreReadRow, ∃ k v, k ∈ sampleEntries.map Prod.fst ∧
        mapLookup sampleEntries k = some v ∧ row = [k, v]) ∧
      r.PreReadRow.Perm (sampleEntries.map (fun e => [e.1, e.2])) ∧
      (∀ k ∈ sampleEntries.map Prod.fst,
        (r.PreReadRow.filter (fun row => decide (row.head? = some k))).length = 1) :=
  ⟨by decide, by decide, by decide, demoEnv_mapKeysValid,
    map_table demoEnv "t" (.basic .string) (.basic .int) sampleEntries (by decide) (by decide)
      (by decide) demoEnv_mapKeysValid⟩

/-! ## C4: the schema of a slice of structs -/

/-- C4: for every non-empty slice of structs, `NewSliceReader` yields one column
per field of the element type, `Names[i]` the name of field `i` in declaration
order, and `Types[i]` the type tag of the kind of field `i`'s declared type. -/
theorem struct_slice_schema (env : Env) (tableName : String) (fs : List (String × GoType))
    (x0 : GoVal) (xs : List GoVal) (hty : ∀ x ∈ x0 :: xs, x.TypeOf = some (.struct fs)) :
    ∃ r, NewSliceReader env tableName (.slice (.struct fs) (x0 :: xs)) = .ok r ∧
      r.Names = (fs.map Prod.fst, none) ∧
      r.Types = (fs.map (fun f => typeToDBType env f.2.Kind), none) ∧
      r.Names.1.length = fs.length ∧
      ∀ (i : Nat) (f : String × GoType), fs[i]? = some f →
        r.Names.1[i]? = some f.1 ∧ r.Types.1[i]? = some (typeToDBType env f.2.Kind) := by
  refine ⟨_, NewSliceReader_structSlice env tableName fs x0 xs hty, rfl, rfl, ?_, ?_⟩
  · simp [SliceReader.Names]
  · intro i f hf
    simp [SliceReader.Names, SliceReader.Types, hf]

/-- C4 at the slice `[]struct{ID int; Name string}{{1, "a"}, {2, "b"}}`: the names
are `["ID", "Name"]` and the types `["int", DefaultDBType]`. -/
theorem struct_slice_schema_witness :
    (∀ x ∈ goRecord 1 "a" :: [goRecord 2 "b"], x.TypeOf = some (.struct recordFields)) ∧
    ∃ r, NewSliceReader demoEnv "t"
        (.slice (.struct recordFields) (goRecord 1 "a" :: [goRecord 2 "b"])) = .ok r ∧
      r.Names = (recordFields.map Prod.fst, none) ∧
      r.Types = (recordFields.map (fun f => typeToDBType demoEnv f.2.Kind), none) ∧
      r.Names.1.length = recordFields.length ∧
      ∀ (i : Nat) (f : String × GoType), recordFields[i]? = some f →
        r.Names.1[i]? = some f.1 ∧ r.Types.1[i]? = some (typeToDBType demoEnv f.2.Kind) :=
  ⟨by decide, struct_slice_schema demoEnv "t" recordFields (goRecord 1 "a") [goRecord 2 "b"]
    (by decide)⟩

/-! ## C5, C6, C7: slices of slices -/

/-- C5, as stated, fails: for the slice of slices `[][]int{{1, 2}, {3, 4}}` the
type assertion on the rows panics, so no table and no column comes back. -/
theorem slice_slice_schema_fails_on_int_rows :
    NewSliceReader demoEnv "t" intRows = .error .typeAssertion ∧
    ¬ ∃ r, NewSliceReader demoEnv "t" intRows = .ok r ∧ r.Names.1.length = 2 := by
  have hrun : NewSliceReader demoEnv "t" intRows = .error .typeAssertion := rfl
  refine ⟨hrun, ?_⟩
  rintro ⟨r, hr, _⟩
  rw [hrun] at hr
  cases hr

/-- C5, amended: for every non-empty slice of slices whose rows are of type
`[]interface{}`, `NewSliceReader` yields exactly `N = len(s[0])` columns,
`Names[i]` is `"c"` followed by the decimal rendering of `i+1`, the names are
pairwise distinct, `Types[i]` is the type tag of the kind of the cell `s[0][i]`,
and names and types are the same whatever the rows after element 0 are. -/
theorem slice_slice_schema (env : Env) (tableName : String) (row0 : List GoVal)
    (rest : List (List GoVal)) :
    ∃ r, NewSliceReader env tableName
        (.slice (.slice .iface) ((row0 :: rest).map (GoVal.slice .iface))) = .ok r ∧
      r.Names.1.length = row0.length ∧ r.Names.2 = none ∧
      (∀ i, i < row0.length → r.Names.1[i]? = some ("c" ++ toString (i + 1))) ∧
      r.Names.1.Nodup ∧
      r.Types = (row0.map (fun c => typeToDBType env (ValueOf c).Kind), none) ∧
      ∀ rest' : List (List GoVal), ∃ r', NewSliceReader env tableName
          (.slice (.slice .iface) ((row0 :: rest').map (GoVal.slice .iface))) = .ok r' ∧
        r'.Names = r.Names ∧ r'.Types = r.Types := by
  refine ⟨_, NewSliceReader_sliceSlice env tableName row0 rest, ?_, rfl, ?_, ?_, rfl, ?_⟩
  · simp [SliceReader.Names]
  · intro i hi
    simp [SliceReader.Names, hi, Sprintf_c_d]
  · exact columnNames_nodup row0.length
  · intro rest'
    exact ⟨_, NewSliceReader_sliceSlice env tableName row0 rest', rfl, rfl⟩

/-- C6, as stated, fails: for the slice of slices `[][]string{{"a", "b"}}` the type
assertion on the first row panics, so `PreReadRow` has no rows to return. -/
theorem slice_slice_rows_fail_on_string_rows :
    NewSliceReader demoEnv "t" stringRows = .error .typeAssertion ∧
    ¬ ∃ r, NewSliceReader demoEnv "t" stringRows = .ok r ∧
      r.PreReadRow = [[goStr "a", goStr "b"]] := by
  have hrun : NewSliceReader demoEnv "t" stringRows = .error .typeAssertion := rfl
  refine ⟨hrun, ?_⟩
  rintro ⟨r, hr, _⟩
  rw [hrun] at hr
  cases hr

/-- C6, amended: for every non-empty slice of slices `s` whose rows are of type
`[]interface{}`, the rows returned by `PreReadRow` equal `s` exactly: as many
rows, in input order, row `i` being `s[i]` verbatim. -/
theorem slice_slice_rows (env : Env) (tableName : String) (row0 : List GoVal)
    (rest : List (List GoVal)) :
    ∃ r, NewSliceReader env tableName
        (.slice (.slice .iface) ((row0 :: rest).map (GoVal.slice .iface))) = .ok r ∧
      r.PreReadRow = row0 :: rest ∧
      r.PreReadRow.length = (row0 :: rest).length ∧
      ∀ i : Nat, r.PreReadRow[i]? = (row0 :: rest)[i]? :=
  ⟨_, NewSliceReader_sliceSlice env tableName row0 rest, rfl, rfl, fun _ => rfl⟩

/-- C7, as stated, fails: from `[][]interface{}{{1, 2}, {3}}` construction does
not fail; it returns a table with two columns that contains the one-cell row
`[3]`. -/
theorem ragged_rows_are_not_rejected :
    ∃ r, NewSliceReader demoEnv "t" raggedRows = .ok r ∧
      [goInt 3] ∈ r.PreReadRow ∧ [goInt 3].length ≠ r.Names.1.length :=
  ⟨⟨"t", ["c1", "c2"], ["int", "int"], [[goInt 1, goInt 2], [goInt 3]]⟩, rfl,
    by simp [SliceReader.PreReadRow], by simp [SliceReader.Names]⟩

/-- C7, amended: for every slice of `[]interface{}` rows in which some row's
length differs from the length of element 0, construction succeeds without
checking row lengths: the table holds the input rows verbatim, among them a row
whose cell count disagrees with the column count. -/
theorem ragged_rows_pass_through (env : Env) (tableName : String) (row0 : List GoVal)
    (rest : List (List GoVal)) (h : ∃ row ∈ rest, row.length ≠ row0.length) :
    ∃ r, NewSliceReader env tableName
        (.slice (.slice .iface) ((row0 :: rest).map (GoVal.slice .iface))) = .ok r ∧
      r.PreReadRow = row0 :: rest ∧
      ∃ row ∈ r.PreReadRow, row.length ≠ r.Names.1.length := by
  obtain ⟨row, hrow, hlen⟩ := h
  refine ⟨_, NewSliceReader_sliceSlice env tableName row0 rest, rfl, row, ?_, ?_⟩
  · simp [SliceReader.PreReadRow, hrow]
  · simpa [SliceReader.Names] using hlen

/-- C7 at the rows `[][]interface{}{{1, 2}, {3}}`. -/
theorem ragged_rows_pass_through_witness :
    (∃ row ∈ [[goInt 3]], row.length ≠ [goInt 1, goInt 2].length) ∧
    ∃ r, NewSliceReader demoEnv "t"
        (.slice (.slice .iface)
          (([goInt 1, goInt 2] :: [[goInt 3]]).map (GoVal.slice .iface))) = .ok r ∧
      r.PreReadRow = [goInt 1, goInt 2] :: [[goInt 3]] ∧
      ∃ row ∈ r.PreReadRow, row.length ≠ r.Names.1.length :=
  ⟨⟨[goInt 3], by simp, by decide⟩,
    ragged_rows_pass_through demoEnv "t" [goInt 1, goInt 2] [[goInt 3]]
      ⟨[goInt 3], by simp, by decide⟩⟩

/-! ## C8: empty containers -/

/-- C8, as stated, fails: the empty slice `[]interface{}{}` is not rejected with
an error of its own; the access to element 0 goes out of range. -/
theorem empty_slice_index_out_of_range :
    NewSliceReader demoEnv "t" (.slice .iface []) = .error .indexOutOfRange := rfl

/-- C8, amended: for every empty container input (a zero-length slice or a
zero-entry map), `NewSliceReader` builds no table and raises no error of its
own: it panics on the out-of-range access to element 0 of the slice, or to the
first key of the map. -/
theorem empty_container_faults (env : Env) (tableName : String) (hv : env.MapKeysValid) :
    (∀ e : GoType, NewSliceReader env tableName (.slice e []) = .error .indexOutOfRange) ∧
    (∀ kt et : GoType, NewSliceReader env tableName (.map kt et []) =
      .error .indexOutOfRange) := by
  constructor
  · intro e
    rfl
  · intro kt et
    have h0 : env.mapKeys 0 [] = [] := List.Perm.eq_nil (hv 0 [])
    have hkeys : (Value.mk (.map kt et) (.map kt et [])).MapKeys (env.mapKeys 0) =
        .ok [] := by
      simp [Value.MapKeys, h0]
    show mapSliceReader env tableName (.mk (.map kt et) (.map kt et [])) = _
    simp only [mapSliceReader, Indirect, hkeys, ok_bind]
    rfl

/-- C8 at the sample environment. -/
theorem empty_container_faults_witness :
    demoEnv.MapKeysValid ∧
    (∀ e : GoType, NewSliceReader demoEnv "t" (.slice e []) = .error .indexOutOfRange) ∧
    (∀ kt et : GoType, NewSliceReader demoEnv "t" (.map kt et []) =
      .error .indexOutOfRange) :=
  ⟨demoEnv_mapKeysValid, empty_container_faults demoEnv "t" demoEnv_mapKeysValid⟩

/-! ## C9: the rows of a slice of structs -/

/-- C9: for every non-empty slice of structs `s`, the table has `len(s)` rows in
input order, every row has `len(Names())` cells, and cell `j` of row `i` is the
`%v` rendering, a Go string, of field `j` of `s[i]`, the fields taken in the
declaration order that names the columns. -/
theorem struct_slice_rows (env : Env) (tableName : String) (fs : List (String × GoType))
    (x0 : GoVal) (xs : List GoVal) (hty : ∀ x ∈ x0 :: xs, x.TypeOf = some (.struct fs)) :
    ∃ r, NewSliceReader env tableName (.slice (.struct fs) (x0 :: xs)) = .ok r ∧
      r.PreReadRow.length = (x0 :: xs).length ∧
      (∀ row ∈ r.PreReadRow, row.length = r.Names.1.length) ∧
      r.PreReadRow = (x0 :: xs).map (fun x =>
        x.fieldSlots.map (fun s => GoVal.ofString (env.Sprintf_v s))) ∧
      (∀ (i j : Nat) (vs : List (String × GoType × GoVal)) (f : String × GoType × GoVal),
        (x0 :: xs)[i]? = some (.struct vs) → vs[j]? = some f →
        ∃ row, r.PreReadRow[i]? = some row ∧
          row[j]? = some (GoVal.ofString (env.Sprintf_v (.mk f.2.1 f.2.2))) ∧
          r.Names.1[j]? = some f.1) ∧
      (∀ row ∈ r.PreReadRow, ∀ c ∈ row, (ValueOf c).Kind = .String) := by
  have hfields : ∀ vs, GoVal.struct vs ∈ x0 :: xs → fs = structFieldTypes vs := by
    intro vs hmem
    have := hty _ hmem
    simp only [GoVal.TypeOf, Option.some.injEq, GoType.struct.injEq] at this
    exact this.symm
  refine ⟨_, NewSliceReader_structSlice env tableName fs x0 xs hty, ?_, ?_, rfl, ?_, ?_⟩
  · simp [SliceReader.PreReadRow]
  · intro row hrow
    simp only [SliceReader.PreReadRow, List.mem_map] at hrow
    obtain ⟨x, hx, rfl⟩ := hrow
    have hx' := hty x hx
    cases x with
    | nil => simp [GoVal.TypeOf] at hx'
    | basic k p => simp [GoVal.TypeOf] at hx'
    | slice e ys => simp [GoVal.TypeOf] at hx'
    | map k e es => simp [GoVal.TypeOf] at hx'
    | struct vs =>
      simp [GoVal.fieldSlots, SliceReader.Names, hfields vs hx, structFieldTypes]
  · intro i j vs f hi hj
    have hmem : GoVal.struct vs ∈ x0 :: xs := List.mem_iff_getElem?.2 ⟨i, hi⟩
    refine ⟨(GoVal.struct vs).fieldSlots.map (renderField env), ?_, ?_, ?_⟩
    · simp only [SliceReader.PreReadRow, List.getElem?_map, hi]
      rfl
    · simp [GoVal.fieldSlots, List.getElem?_map, hj, renderField]
    · simp [SliceReader.Names, hfields vs hmem, structFieldTypes, List.getElem?_map, hj]
  · intro row hrow c hc
    simp only [SliceReader.PreReadRow, List.mem_map] at hrow
    obtain ⟨x, _, rfl⟩ := hrow
    obtain ⟨s, _, rfl⟩ := List.mem_map.1 hc
    rfl

/-- C9 at the slice `[]struct{ID int; Name string}{{1, "a"}, {2, "b"}}`. -/
theorem struct_slice_rows_witness :
    (∀ x ∈ goRecord 1 "a" :: [goRecord 2 "b"], x.TypeOf = some (.struct recordFields)) ∧
    ∃ r, NewSliceReader demoEnv "t"
        (.slice (.struct recordFields) (goRecord 1 "a" :: [goRecord 2 "b"])) = .ok r ∧
      r.PreReadRow.length = (goRecord 1 "a" :: [goRecord 2 "b"]).length ∧
      (∀ row ∈ r.PreReadRow, row.length = r.Names.1.length) ∧
      r.PreReadRow = (goRecord 1 "a" :: [goRecord 2 "b"]).map (fun x =>
        x.fieldSlots.map (fun s => GoVal.ofString (demoEnv.Sprintf_v s))) ∧
      (∀ (i j : Nat) (vs : List (String × GoType × GoVal)) (f : String × GoType × GoVal),
        (goRecord 1 "a" :: [goRecord 2 "b"])[i]? = some (.struct vs) → vs[j]? = some f →
        ∃ row, r.PreReadRow[i]? = some row ∧
          row[j]? = some (GoVal.ofString (demoEnv.Sprintf_v (.mk f.2.1 f.2.2))) ∧
          r.Names.1[j]? = some f.1) ∧
      (∀ row ∈ r.PreReadRow, ∀ c ∈ row, (ValueOf c).Kind = .String) :=
  ⟨by decide, struct_slice_rows demoEnv "t" recordFields (goRecord 1 "a") [goRecord 2 "b"]
    (by decide)⟩

/-! ## C10: a slice of single values -/

/-- C10, as stated, fails: for the slice `[]int{1, 2, 3}` the type assertion to
`[]interface{}` panics, so no table comes back. -/
theorem scalar_slice_fails_on_int_slice :
    NewSliceReader demoEnv "t" intSlice = .error .typeAssertion ∧
    ¬ ∃ r, NewSliceReader demoEnv "t" intSlice = .ok r ∧ r.Names = (["c1"], none) := by
  have hrun : NewSliceReader demoEnv "t" intSlice = .error .typeAssertion := rfl
  refine ⟨hrun, ?_⟩
  rintro ⟨r, hr, _⟩
  rw [hrun] at hr
  cases hr

/-- C10, amended: for every non-empty slice `s` of type `[]interface{}`,
`NewSliceReader` returns a table with the single column `"c1"`, a single type
tag taken from the kind of `s[0]` only, and exactly `len(s)` rows in input
order, row `i` being the one-cell row `[s[i]]`. -/
theorem scalar_slice_table (env : Env) (tableName : String) (x0 : GoVal) (xs : List GoVal) :
    ∃ r, NewSliceReader env tableName (.slice .iface (x0 :: xs)) = .ok r ∧
      r.Names = (["c1"], none) ∧
      r.Types = ([typeToDBType env (ValueOf x0).Kind], none) ∧
      r.PreReadRow.length = (x0 :: xs).length ∧
      (∀ (i : Nat) (x : GoVal), (x0 :: xs)[i]? = some x → r.PreReadRow[i]? = some [x]) ∧
      ∀ xs' : List GoVal, ∃ r', NewSliceReader env tableName (.slice .iface (x0 :: xs')) =
        .ok r' ∧ r'.Types = r.Types := by
  refine ⟨_, NewSliceReader_interfaceSlice env tableName x0 xs, rfl, rfl, ?_, ?_, ?_⟩
  · simp [SliceReader.PreReadRow]
  · intro i x hi
    simp only [SliceReader.PreReadRow, List.getElem?_map, hi]
    rfl
  · intro xs'
    exact ⟨_, NewSliceReader_interfaceSlice env tableName x0 xs', rfl⟩

/-! ## C11: the type tags -/

/-- The tag of a kind is `"int"` or `DefaultDBType`. -/
theorem typeToDBType_eq (env : Env) (k : Kind) :
    typeToDBType env k = if isSignedInt k = true then "int" else env.DefaultDBType := by
  cases k <;> rfl

/-- C11: `typeToDBType` is a two-valued classification: it returns `"int"` for
the signed integer kinds `Int`, `Int8`, `Int16`, `Int32`, `Int64` and
`DefaultDBType` for every other kind (unsigned integers, floats, strings, bools,
composite and invalid kinds among them), and no third value. -/
theorem typeToDBType_two_valued (env : Env) :
    (∀ k : Kind, k ∈ [Kind.Int, .Int8, .Int16, .Int32, .Int64] →
      typeToDBType env k = "int") ∧
    (∀ k : Kind, k ∉ [Kind.Int, .Int8, .Int16, .Int32, .Int64] →
      typeToDBType env k = env.DefaultDBType) ∧
    (∀ k : Kind, k ∈ [Kind.Uint, .Uint8, .Uint16, .Uint32, .Uint64, .Uintptr, .Float32,
        .Float64, .Complex64, .Complex128, .String, .Bool, .Array, .Chan, .Func, .Interface,
        .Map, .Pointer, .Slice, .Struct, .UnsafePointer, .Invalid] →
      typeToDBType env k = env.DefaultDBType) ∧
    (∀ k : Kind, typeToDBType env k = "int" ∨ typeToDBType env k = env.DefaultDBType) := by
  refine ⟨?_, ?_, ?_, ?_⟩
  · intro k hk
    cases k <;> first | rfl | simp at hk
  · intro k hk
    cases k <;> first | rfl | simp at hk
  · intro k hk
    cases k <;> first | rfl | simp at hk
  · intro k
    cases k <;> simp [typeToDBType]

/-! ## C12, C13, C14: the read contract -/

/-- C12: for every `SliceReader`, whatever rows it holds, and every buffer
argument, `ReadRow` returns no row (`nil`) together with `io.EOF`. -/
theorem readRow_is_eof (r : SliceReader) (row : List GoVal) :
    r.ReadRow row = (none, some GoError.EOF) ∧
    (r.ReadRow row).1 = none ∧ (r.ReadRow row).2 = some GoError.EOF :=
  ⟨rfl, rfl, rfl⟩

/-- C13: for every `SliceReader`, `Names()` returns the column names stored at
construction with a nil error, and `Types()` returns the column types stored at
construction with a nil error; neither returns a non-nil error. -/
theorem names_types_never_fail (r : SliceReader) :
    r.Names = (r.names, none) ∧ r.Types = (r.types, none) ∧
    r.Names.2 = none ∧ r.Types.2 = none :=
  ⟨rfl, rfl, rfl, rfl⟩

/-- A call leaves the reader as it was. -/
theorem call_fst (r : SliceReader) (c : ReadCall) : (r.call c).1 = r := by
  cases c <;> rfl

/-- A sequence of calls leaves the reader as it was. -/
theorem calls_eq (r : SliceReader) : ∀ cs : List ReadCall, r.calls cs = r
  | [] => rfl
  | c :: cs => by
      rw [SliceReader.calls, call_fst]
      exact calls_eq r cs

/-- C14: for every `SliceReader` and every finite sequence of calls of `Names`,
`Types`, `PreReadRow` and `ReadRow` made before it, a call of any of the read
methods returns what it returns on the fresh reader, and the reader's names,
types and data are unchanged. -/
theorem read_contract_idempotent (r : SliceReader) (cs : List ReadCall) (c : ReadCall) :
    ((r.calls cs).call c).2 = (r.call c).2 ∧
    (r.calls cs).Names = r.Names ∧ (r.calls cs).Types = r.Types ∧
    (r.calls cs).PreReadRow = r.PreReadRow ∧
    (r.calls cs).names = r.names ∧ (r.calls cs).types = r.types ∧
    (r.calls cs).data = r.data := by
  rw [calls_eq]
  exact ⟨rfl, rfl, rfl, rfl, rfl, rfl, rfl⟩

/-! ## C15: the types of a map table -/

/-- C15 at the map `map[string]interface{}{"a": 1}`: the table is built, its
type tags are `[DefaultDBType, DefaultDBType]` (the element slot has kind
`Interface`), while the one entry `("a", 1)` has a value of kind `Int`, whose tag
is `"int"`; so no entry of the map gives the declared types. -/
theorem map_types_ignore_boxed_kind :
    NewSliceReader demoEnv "t" ifaceMap =
      .ok ⟨"t", ["c1", "c2"], ["text", "text"], [[goStr "a", goInt 1]]⟩ ∧
    typeToDBType demoEnv (ValueOf (goInt 1)).Kind = "int" ∧
    ¬ ∃ r k v, NewSliceReader demoEnv "t" ifaceMap = .ok r ∧ (k, v) ∈ [(goStr "a", goInt 1)] ∧
      r.Types.1 = [typeToDBType demoEnv (ValueOf k).Kind,
        typeToDBType demoEnv (ValueOf v).Kind] := by
  have hrun : NewSliceReader demoEnv "t" ifaceMap =
      .ok ⟨"t", ["c1", "c2"], ["text", "text"], [[goStr "a", goInt 1]]⟩ := rfl
  refine ⟨hrun, rfl, ?_⟩
  rintro ⟨r, k, v, hr, hmem, hty⟩
  rw [hrun] at hr
  cases hr
  simp only [List.mem_singleton, Prod.mk.injEq] at hmem
  obtain ⟨rfl, rfl⟩ := hmem
  revert hty
  decide

/-! ## C16: values that are neither maps nor slices -/

/-- C16, as stated, fails: on the nil interface value the scalar branch panics in
`val.Interface()`, and no table comes back. -/
theorem nil_input_panics :
    NewSliceReader demoEnv "t" .nil = .error .zeroValue ∧
    ¬ ∃ r, NewSliceReader demoEnv "t" .nil = .ok r := by
  have hrun : NewSliceReader demoEnv "t" .nil = .error .zeroValue := rfl
  refine ⟨hrun, ?_⟩
  rintro ⟨r, hr⟩
  rw [hrun] at hr
  cases hr

/-- C16, amended: for every non-nil input value whose kind is neither map nor
slice (a bare struct, an array, a pointer among them), `NewSliceReader` does
not validate the shape and takes the scalar branch, returning a table with the
single column `"c1"` and exactly one single-cell row holding the value; on the
nil interface value the scalar branch panics and returns no table. -/
theorem non_container_falls_through (env : Env) (tableName : String) (v : GoVal)
    (hv : v ≠ .nil) (hm : (ValueOf v).Kind ≠ .Map) (hs : (ValueOf v).Kind ≠ .Slice) :
    (∃ r, NewSliceReader env tableName v = .ok r ∧
      r = ⟨tableName, ["c1"], [typeToDBType env (ValueOf v).Kind], [[v]]⟩ ∧
      r.Names = (["c1"], none) ∧ r.PreReadRow = [[v]]) ∧
    NewSliceReader env tableName .nil = .error .zeroValue :=
  ⟨⟨_, NewSliceReader_single env tableName v hv hm hs, rfl, rfl, rfl⟩, rfl⟩

/-- C16 at the bare struct `struct{ID int; Name string}{1, "a"}`. -/
theorem non_container_falls_through_witness :
    goRecord 1 "a" ≠ .nil ∧ (ValueOf (goRecord 1 "a")).Kind ≠ .Map ∧
    (ValueOf (goRecord 1 "a")).Kind ≠ .Slice ∧
    (∃ r, NewSliceReader demoEnv "t" (goRecord 1 "a") = .ok r ∧
      r = ⟨"t", ["c1"], [typeToDBType demoEnv (ValueOf (goRecord 1 "a")).Kind],
        [[goRecord 1 "a"]]⟩ ∧
      r.Names = (["c1"], none) ∧ r.PreReadRow = [[goRecord 1 "a"]]) ∧
    NewSliceReader demoEnv "t" .nil = .error .zeroValue :=
  ⟨by decide, by decide, by decide,
    non_container_falls_through demoEnv "t" (goRecord 1 "a") (by decide) (by decide)
      (by decide)⟩

/-! ## C17: dispatch -/

/-- C17: a map-kind value always goes to the map strategy; a non-empty slice is
dispatched on the kind `reflect` reports for its element at index 0 alone
(`Struct` to the struct-slice strategy, `Slice` to the slice-of-slice
strategy, any other kind to the slice-of-scalar strategy), whatever the later
elements are. -/
theorem dispatch_precedence (env : Env) (tableName : String) :
    (∀ (kt et : GoType) (es : List (GoVal × GoVal)),
      NewSliceReader env tableName (.map kt et es) =
        mapSliceReader env tableName (ValueOf (.map kt et es))) ∧
    (∀ (e : GoType) (x0 : GoVal) (xs : List GoVal),
      ∃ v0, (ValueOf (.slice e (x0 :: xs))).Index 0 = .ok v0 ∧ v0 = Value.mk e x0 ∧
        (v0.Kind = .Struct → NewSliceReader env tableName (.slice e (x0 :: xs)) =
          structSliceReader env tableName (ValueOf (.slice e (x0 :: xs)))) ∧
        (v0.Kind = .Slice → NewSliceReader env tableName (.slice e (x0 :: xs)) =
          sliceSliceReader env tableName (ValueOf (.slice e (x0 :: xs)))) ∧
        (v0.Kind ≠ .Struct → v0.Kind ≠ .Slice →
          NewSliceReader env tableName (.slice e (x0 :: xs)) =
            interfaceSliceReader env tableName (ValueOf (.slice e (x0 :: xs))))) := by
  refine ⟨fun kt et es => rfl, ?_⟩
  intro e x0 xs
  have hidx : (ValueOf (.slice e (x0 :: xs))).Index 0 = .ok (Value.mk e x0) := by
    simp [ValueOf, GoVal.TypeOf, Value.Index]
  have hrun : NewSliceReader env tableName (.slice e (x0 :: xs)) =
      (match (Value.mk e x0).Kind with
        | .Struct => structSliceReader env tableName (ValueOf (.slice e (x0 :: xs)))
        | .Slice => sliceSliceReader env tableName (ValueOf (.slice e (x0 :: xs)))
        | _ => interfaceSliceReader env tableName (ValueOf (.slice e (x0 :: xs)))) := by
    simp only [NewSliceReader, ValueOf, GoVal.TypeOf, Value.Kind, GoType.Kind, Value.Index,
      List.getElem?_cons_zero, ok_bind]
  refine ⟨_, hidx, rfl, ?_, ?_, ?_⟩
  · intro hk
    rw [hrun, hk]
  · intro hk
    rw [hrun, hk]
  · intro h1 h2
    rw [hrun]
    split
    · rename_i hk
      exact absurd hk h1
    · rename_i hk
      exact absurd hk h2
    · rfl

/-! ## C18: the schema and element 0 -/

/-- C18, as stated, fails: `[]interface{}{1}` and `[]int{1}` have the same element
at index 0; the first gives a table with names `["c1"]` and types `["int"]`, the
second panics at the type assertion and gives no names and no types. -/
theorem schema_differs_for_plain_slice :
    boxedOne.elems[0]? = plainOne.elems[0]? ∧
    NewSliceReader demoEnv "t1" boxedOne = .ok ⟨"t1", ["c1"], ["int"], [[goInt 1]]⟩ ∧
    NewSliceReader demoEnv "t2" plainOne = .error .typeAssertion ∧
    ¬ ∃ r1 r2, NewSliceReader demoEnv "t1" boxedOne = .ok r1 ∧
      NewSliceReader demoEnv "t2" plainOne = .ok r2 ∧
      r1.Names = r2.Names ∧ r1.Types = r2.Types := by
  have hrun : NewSliceReader demoEnv "t2" plainOne = .error .typeAssertion := rfl
  refine ⟨rfl, rfl, hrun, ?_⟩
  rintro ⟨r1, r2, _, h2, _⟩
  rw [hrun] at h2
  cases h2

/-- C18, amended: for any two table names and any two non-empty slices of
`[]interface{}` rows (or two non-empty `[]interface{}` slices of single values)
that have the same element at index 0, `NewSliceReader` produces identical
`Names` and identical `Types`, whatever the remaining elements are. -/
theorem schema_depends_on_element_zero (env : Env) (t1 t2 : String) :
    (∀ (row0 : List GoVal) (rest1 rest2 : List (List GoVal)), ∃ r1 r2,
      NewSliceReader env t1
        (.slice (.slice .iface) ((row0 :: rest1).map (GoVal.slice .iface))) = .ok r1 ∧
      NewSliceReader env t2
        (.slice (.slice .iface) ((row0 :: rest2).map (GoVal.slice .iface))) = .ok r2 ∧
      r1.Names = r2.Names ∧ r1.Types = r2.Types) ∧
    (∀ (x0 : GoVal) (rest1 rest2 : List GoVal), ∃ r1 r2,
      NewSliceReader env t1 (.slice .iface (x0 :: rest1)) = .ok r1 ∧
      NewSliceReader env t2 (.slice .iface (x0 :: rest2)) = .ok r2 ∧
      r1.Names = r2.Names ∧ r1.Types = r2.Types) :=
  ⟨fun row0 rest1 rest2 => ⟨_, _, NewSliceReader_sliceSlice env t1 row0 rest1,
      NewSliceReader_sliceSlice env t2 row0 rest2, rfl, rfl⟩,
    fun x0 rest1 rest2 => ⟨_, _, NewSliceReader_interfaceSlice env t1 x0 rest1,
      NewSliceReader_interfaceSlice env t2 x0 rest2, rfl, rfl⟩⟩

/-! ## C19: the type tags of a table -/

/-- A tag that `typeToDBType` returns. -/
theorem typeToDBType_closed (env : Env) (k : Kind) :
    typeToDBType env k = "int" ∨ typeToDBType env k = env.DefaultDBType := by
  cases k <;> simp [typeToDBType]

theorem mapSliceReader_types (env : Env) (tableName : String) (val : Value) (r : SliceReader)
    (h : mapSliceReader env tableName val = .ok r) :
    ∀ tag ∈ r.types, tag = "int" ∨ tag = env.DefaultDBType := by
  simp only [mapSliceReader, bind_eq_ok, pure_eq_ok] at h
  obtain ⟨_, _, _, _, _, _, _, _, _, _, _, _, _, _, rfl⟩ := h
  intro tag htag
  simp only [List.mem_cons, List.mem_singleton, List.not_mem_nil, or_false] at htag
  rcases htag with rfl | rfl <;> exact typeToDBType_closed env _

theorem interfaceSliceReader_types (env : Env) (tableName : String) (val : Value)
    (r : SliceReader) (h : interfaceSliceReader env tableName val = .ok r) :
    ∀ tag ∈ r.types, tag = "int" ∨ tag = env.DefaultDBType := by
  simp only [interfaceSliceReader, bind_eq_ok, pure_eq_ok] at h
  obtain ⟨_, _, _, _, _, _, _, _, rfl⟩ := h
  intro tag htag
  simp only [List.mem_singleton] at htag
  rw [htag]
  exact typeToDBType_closed env _

theorem structSliceReader_types (env : Env) (tableName : String) (val : Value)
    (r : SliceReader) (h : structSliceReader env tableName val = .ok r) :
    ∀ tag ∈ r.types, tag = "int" ∨ tag = env.DefaultDBType := by
  simp only [structSliceReader, bind_eq_ok, pure_eq_ok] at h
  obtain ⟨_, _, _, _, t, _, _, _, cols, hcols, _, _, rfl⟩ := h
  intro tag htag
  simp only [List.mem_map] at htag
  obtain ⟨c, hc, rfl⟩ := htag
  obtain ⟨i, _, hi⟩ := mapM_ok_mem _ _ _ hcols c hc
  simp only [bind_eq_ok, pure_eq_ok] at hi
  obtain ⟨f, _, rfl⟩ := hi
  exact typeToDBType_closed env _

theorem sliceSliceReader_types (env : Env) (tableName : String) (val : Value)
    (r : SliceReader) (h : sliceSliceReader env tableName val = .ok r) :
    ∀ tag ∈ r.types, tag = "int" ∨ tag = env.DefaultDBType := by
  simp only [sliceSliceReader, bind_eq_ok, pure_eq_ok] at h
  obtain ⟨_, _, col, _, _, _, cols, hcols, _, _, rfl⟩ := h
  intro tag htag
  simp only [List.mem_map] at htag
  obtain ⟨c, hc, rfl⟩ := htag
  obtain ⟨i, _, hi⟩ := mapM_ok_mem _ _ _ hcols c hc
  simp only [bind_eq_ok, pure_eq_ok] at hi
  obtain ⟨_, _, _, _, rfl⟩ := hi
  exact typeToDBType_closed env _

/-- Every tag of a table `NewSliceReader` returns is `"int"` or `DefaultDBType`. -/
theorem NewSliceReader_types (env : Env) (tableName : String) (args : GoVal)
    (r : SliceReader) (h : NewSliceReader env tableName args = .ok r) :
    ∀ tag ∈ r.types, tag = "int" ∨ tag = env.DefaultDBType := by
  unfold NewSliceReader at h
  simp only [bind_eq_ok, pure_eq_ok] at h
  split at h
  · exact mapSliceReader_types env tableName _ r h
  · simp only [bind_eq_ok] at h
    obtain ⟨v0, _, h⟩ := h
    split at h
    · exact structSliceReader_types env tableName _ r h
    · exact sliceSliceReader_types env tableName _ r h
    · exact interfaceSliceReader_types env tableName _ r h
  · simp only [bind_eq_ok, pure_eq_ok] at h
    obtain ⟨_, _, rfl⟩ := h
    intro tag htag
    simp only [List.mem_singleton] at htag
    rw [htag]
    exact typeToDBType_closed env _

/-- C19: every entry of `Types()` of every table `NewSliceReader` constructs,
from a supported non-empty input or from any other, is either `"int"` or
`DefaultDBType`. -/
theorem type_tags_closed (env : Env) (tableName : String) (args : GoVal) (r : SliceReader)
    (h : NewSliceReader env tableName args = .ok r) :
    ∀ tag ∈ r.Types.1, tag = "int" ∨ tag = env.DefaultDBType :=
  NewSliceReader_types env tableName args r h

/-- C19 at the map `map[string]int{"a": 1, "b": 2}`. -/
theorem type_tags_closed_witness :
    NewSliceReader demoEnv "t" (.map (.basic .string) (.basic .int) sampleEntries) =
      .ok ⟨"t", ["c1", "c2"], ["text", "int"], [[goStr "a", goInt 1], [goStr "b", goInt 2]]⟩ ∧
    ∀ tag ∈ (SliceReader.mk "t" ["c1", "c2"] ["text", "int"]
        [[goStr "a", goInt 1], [goStr "b", goInt 2]]).Types.1,
      tag = "int" ∨ tag = demoEnv.DefaultDBType :=
  ⟨rfl, type_tags_closed demoEnv "t"
    (.map (.basic .string) (.basic .int) sampleEntries) _ rfl⟩

end Trdsql
